import Mathlib

/-!
CDisasm: the capstone-backed disassembler session of pe-bear.

A shallow embedding of `disasm/cdis/CDisasm.cpp`.  The session object becomes the
structure `CDisasm`; every member function becomes a function on it.  The decode
engine (capstone) is a parameter.  Unsigned 64-bit quantities (`offset_t`, `size_t`)
are natural numbers, reduced modulo `2^64` where the C++ arithmetic wraps; `int64_t`
and `int` quantities are integers.  A call of `std::vector::at` that can throw is a
lookup in the `Option` monad.
-/

namespace pe_bear

/-! ## Declarations used by CDisasm.cpp -/

/-- Modelled from the spec: `INVALID_ADDR`, declared outside CDisasm.cpp, is the
"reserved sentinel value meaning invalid/unknown" of the address type `offset_t`
(unsigned, 64 bits); it is the all-ones value `offset_t(-1)`. -/
def INVALID_ADDR : Nat := 18446744073709551615

/-- The value of a C `int` (or `int64_t`) after conversion to the unsigned 64-bit
`size_t` / `offset_t`: reduction modulo `2^64`. -/
def toSizeT (i : Int) : Nat := (i % 18446744073709551616).toNat

/-- The range of a C `int`. -/
@[reducible] def IsCInt (i : Int) : Prop := -2147483648 ≤ i ∧ i ≤ 2147483647

/-- The architectures of `Executable::exe_arch`. -/
inductive exe_arch where
  | ARCH_UNKNOWN
  | ARCH_INTEL
  | ARCH_ARM
  deriving DecidableEq, Repr

/-- The categories of `minidis::mnem_type` that CDisasm.cpp returns. -/
inductive mnem_type where
  | MT_INVALID
  | MT_JUMP
  | MT_COND_JUMP
  | MT_MOV
  | MT_LOOP
  | MT_CALL
  | MT_RET
  | MT_NOP
  | MT_POP
  | MT_PUSH
  | MT_INT3
  | MT_INTX
  | MT_OTHER
  deriving DecidableEq, Repr

open exe_arch mnem_type

/-- Operand kinds of capstone's `x86_op_type`. -/
inductive x86_op_type where
  | X86_OP_INVALID
  | X86_OP_REG
  | X86_OP_IMM
  | X86_OP_MEM
  deriving DecidableEq, Repr

/-- Operand kinds of capstone's `arm64_op_type`; CDisasm.cpp tests only for
`ARM64_OP_IMM`. -/
inductive arm64_op_type where
  | ARM64_OP_INVALID
  | ARM64_OP_REG
  | ARM64_OP_IMM
  | ARM64_OP_MEM
  | ARM64_OP_FP
  | ARM64_OP_OTHER
  deriving DecidableEq, Repr

open x86_op_type arm64_op_type

/-- Capstone's register numbering: `X86_REG_INVALID = 0` means "no register". -/
def X86_REG_INVALID : Nat := 0
/-- Capstone's number of the 32-bit instruction pointer. -/
def X86_REG_EIP : Nat := 26
/-- Capstone's number of the 16-bit instruction pointer. -/
def X86_REG_IP : Nat := 34
/-- Capstone's number of the 64-bit instruction pointer. -/
def X86_REG_RIP : Nat := 41

/-- Capstone's generic instruction groups (`arm64_insn_group`). -/
def ARM64_GRP_JUMP : Nat := 1
/-- Group of call instructions. -/
def ARM64_GRP_CALL : Nat := 2
/-- Group of return instructions. -/
def ARM64_GRP_RET : Nat := 3
/-- Group of interrupt instructions. -/
def ARM64_GRP_INT : Nat := 4
/-- Group of relative branches. -/
def ARM64_GRP_BRANCH_RELATIVE : Nat := 7

/-- The memory part of an x86 operand (`x86_op_mem`): base register and signed
displacement. -/
structure x86_op_mem where
  base : Nat
  disp : Int
  deriving DecidableEq, Repr, Inhabited

/-- An x86 operand (`cs_x86_op`).  CDisasm.cpp reads `imm` only of an immediate and
takes a decision on `mem` only for a memory operand. -/
structure cs_x86_op where
  type : x86_op_type
  imm : Int
  mem : x86_op_mem
  size : Nat
  deriving DecidableEq, Repr

instance : Inhabited cs_x86_op := ⟨⟨X86_OP_INVALID, 0, ⟨0, 0⟩, 0⟩⟩

/-- An ARM64 operand (`cs_arm64_op`). -/
structure cs_arm64_op where
  type : arm64_op_type
  imm : Int
  deriving DecidableEq, Repr

instance : Inhabited cs_arm64_op := ⟨⟨ARM64_OP_INVALID, 0⟩⟩

/-- The x86 part of the operand detail (`cs_x86`): `operands` lists the slots of the
fixed array from slot 0 on; a slot past the list reads as a zeroed operand. -/
structure cs_x86 where
  op_count : Nat
  operands : List cs_x86_op
  deriving DecidableEq, Repr

/-- The ARM64 part of the operand detail (`cs_arm64`). -/
structure cs_arm64 where
  op_count : Nat
  operands : List cs_arm64_op
  deriving DecidableEq, Repr

/-- The operand detail record (`cs_detail`): `groups` holds the first `groups_count`
entries of the group array. -/
structure cs_detail where
  groups : List Nat
  x86 : cs_x86
  arm64 : cs_arm64
  deriving DecidableEq, Repr

instance : Inhabited cs_detail := ⟨⟨[], ⟨0, []⟩, ⟨0, []⟩⟩⟩

/-- The instruction record (`cs_insn`): opcode id, starting address, size in bytes. -/
structure cs_insn where
  id : Nat
  address : Nat
  size : Nat
  deriving DecidableEq, Repr

instance : Inhabited cs_insn := ⟨⟨0, 0, 0⟩⟩

/-- The opcode ids of capstone's `x86_insn` that CDisasm.cpp names.  Their numeric
values belong to the capstone headers and are a parameter of the classifier. -/
structure x86_insn where
  X86_INS_INVALID : Nat
  X86_INS_JMP : Nat
  X86_INS_LJMP : Nat
  X86_INS_JAE : Nat
  X86_INS_JS : Nat
  X86_INS_MOV : Nat
  X86_INS_MOVZX : Nat
  X86_INS_LOOP : Nat
  X86_INS_LOOPE : Nat
  X86_INS_LOOPNE : Nat
  X86_INS_CALL : Nat
  X86_INS_LCALL : Nat
  X86_INS_RET : Nat
  X86_INS_RETF : Nat
  X86_INS_RETFQ : Nat
  X86_INS_NOP : Nat
  X86_INS_POP : Nat
  X86_INS_POPAW : Nat
  X86_INS_POPAL : Nat
  X86_INS_POPCNT : Nat
  X86_INS_POPF : Nat
  X86_INS_POPFD : Nat
  X86_INS_POPFQ : Nat
  X86_INS_PUSH : Nat
  X86_INS_PUSHAW : Nat
  X86_INS_PUSHAL : Nat
  X86_INS_PUSHF : Nat
  X86_INS_PUSHFD : Nat
  X86_INS_PUSHFQ : Nat
  X86_INS_INT3 : Nat
  X86_INS_INT : Nat
  deriving DecidableEq, Repr

/-- The opcode ids of capstone's `arm64_insn` that CDisasm.cpp names. -/
structure arm64_insn where
  ARM64_INS_INVALID : Nat
  ARM64_INS_UDF : Nat
  ARM64_INS_NOP : Nat
  ARM64_INS_CBZ : Nat
  ARM64_INS_CBNZ : Nat
  ARM64_INS_TBNZ : Nat
  ARM64_INS_TBZ : Nat
  deriving DecidableEq, Repr

/-- The opcode numbering of the capstone build the session is compiled against. -/
structure Opcodes where
  x86 : x86_insn
  arm64 : arm64_insn
  deriving DecidableEq, Repr

/-- Capstone's architectures that `init_capstone` opens. -/
inductive cs_arch where
  | CS_ARCH_X86
  | CS_ARCH_ARM64
  | CS_ARCH_ARM
  deriving DecidableEq, Repr

/-- Capstone's modes that `init_capstone` opens. -/
inductive cs_mode where
  | CS_MODE_16
  | CS_MODE_32
  | CS_MODE_64
  | CS_MODE_LITTLE_ENDIAN
  deriving DecidableEq, Repr

open cs_arch cs_mode

/-- The decode engine, an external collaborator: `cs_open` gives an error code (0 is
success) and a handle; `cs_malloc` tells whether the result record of a handle could
be allocated; `cs_disasm` decodes one instruction from the bytes that remain (handle,
bytes, address) and gives its opcode id, its size and its operand detail, or fails. -/
structure Engine where
  cs_open : cs_arch → cs_mode → Nat × Nat
  cs_malloc : Nat → Bool
  cs_disasm : Nat → List Nat → Nat → Option (Nat × Nat × cs_detail)

/-- The session object: the members of `CDisasm` and of its base `Disasm` that
CDisasm.cpp reads or writes.  `handle` is the engine's handle, `m_insn` the reusable
decode-result record with the detail it points to (`none` is the null pointer),
`m_buf` the bytes from the buffer pointer on. -/
structure CDisasm where
  is_init : Bool
  handle : Nat
  m_insn : Option (cs_insn × cs_detail)
  m_buf : List Nat
  m_bufSize : Nat
  m_disasmSize : Nat
  m_iptr : Nat
  m_offset : Nat
  startOffset : Nat
  m_RVA : Nat
  m_bitMode : Nat
  m_arch : exe_arch
  m_table : List cs_insn
  m_details : List cs_detail
  deriving DecidableEq, Repr

/-! ## Helpers of the base class -/

/-- Modelled from the spec: `Disasm::trimToBitMode` is defined outside CDisasm.cpp;
"truncated (two's-complement wraparound) to the configured bit-width". -/
def trimToBitMode (value : Int) (bits : Nat) : Nat := (value % (2 : Int) ^ bits).toNat

/-- Modelled from the spec: `Disasm::getJmpDestAddr` is defined outside CDisasm.cpp;
the "jump-style relative target: instructionVA + instructionSize + displacement", an
unsigned 64-bit address. -/
def getJmpDestAddr (currVA : Nat) (instrLen : Nat) (lVal : Int) : Nat :=
  toSizeT ((currVA : Int) + (instrLen : Int) + lVal)

namespace CDisasm

/-- Modelled from the spec: `_chunksCount` is declared outside CDisasm.cpp; the
"table length". -/
def _chunksCount (s : CDisasm) : Nat := s.m_table.length

/-- Modelled from the spec: `chunksCount` is declared outside CDisasm.cpp; the
"table length". -/
def chunksCount (s : CDisasm) : Nat := s._chunksCount

/-- Modelled from the spec: `getVaAt` is declared outside CDisasm.cpp; the
"per-index virtual address", the starting virtual address of the instruction record,
invalid for an index outside the table. -/
def getVaAt (s : CDisasm) (index : Int) : Nat :=
  if s.m_table.length ≤ toSizeT index then INVALID_ADDR
  else (s.m_table.getD (toSizeT index) default).address

/-- Modelled from the spec: `getRvaAt` is declared outside CDisasm.cpp; isFollowable
requires that "the instruction's virtual address is known (not invalid)", so this is
the address of the instruction record, invalid for an index outside the table. -/
def getRvaAt (s : CDisasm) (index : Int) : Nat :=
  if s.m_table.length ≤ toSizeT index then INVALID_ADDR
  else (s.m_table.getD (toSizeT index) default).address

/-- Modelled from the spec: `getChunkSize` is declared outside CDisasm.cpp; the
instruction record's "size in bytes", 0 for an index outside the table. -/
def getChunkSize (s : CDisasm) (index : Int) : Nat :=
  if s.m_table.length ≤ toSizeT index then 0
  else (s.m_table.getD (toSizeT index) default).size

/-- The final step of `getArgVA` ("cleanup"): a value other than the sentinel is
reported as ok and trimmed to the bit mode. -/
def cleanup (s : CDisasm) (va : Nat) : Nat × Bool :=
  if va ≠ INVALID_ADDR then (trimToBitMode va s.m_bitMode, true) else (va, false)

/-- The member `CDisasm::getArgVA(index, argNum, isOk)`: the returned address and the flag
`isOk`; `none` when `m_details.at(index)` throws. -/
def getArgVA (s : CDisasm) (index argNum : Int) : Option (Nat × Bool) :=
  if s.m_table.length ≤ toSizeT index then some (INVALID_ADDR, false)
  else do
    let _m_insn ← s.m_table[toSizeT index]?
    let m_detail ← s.m_details[toSizeT index]?
    let va : Nat := INVALID_ADDR
    if s.m_arch = ARCH_INTEL then
      let cnt := m_detail.x86.op_count
      if cnt ≤ toSizeT argNum then some (INVALID_ADDR, false)
      else
        let op := m_detail.x86.operands.getD (toSizeT argNum) default
        let op_type := op.type
        let va1 : Nat :=
          if op_type = X86_OP_MEM then
            let lval := op.mem.disp
            let reg := op.mem.base
            let isEIPrelative := reg = X86_REG_IP ∨ reg = X86_REG_EIP ∨ reg = X86_REG_RIP
            if isEIPrelative then
              let currVA := s.getVaAt index
              let instrLen := s.getChunkSize index
              getJmpDestAddr currVA instrLen lval
            else if reg ≤ X86_REG_INVALID then trimToBitMode lval s.m_bitMode
            else va
          else va
        let va2 : Nat := if op_type = X86_OP_IMM then toSizeT op.imm else va1
        some (s.cleanup va2)
    else if s.m_arch = ARCH_ARM ∧ s.m_bitMode = 64 then
      let cnt := m_detail.arm64.op_count
      if cnt ≤ toSizeT argNum then some (INVALID_ADDR, false)
      else
        let op := m_detail.arm64.operands.getD (toSizeT argNum) default
        let va1 : Nat := if op.type = ARM64_OP_IMM then toSizeT op.imm else va
        some (s.cleanup va1)
    else some (s.cleanup va)

/-- The member `CDisasm::clearTable()`: both sequences are emptied; the call returns true. -/
def clearTable (s : CDisasm) : CDisasm × Bool :=
  ({ s with m_table := [], m_details := [] }, true)

/-- The member `CDisasm::getRawAt(index)`; the subtraction is that of unsigned 64-bit values. -/
def getRawAt (s : CDisasm) (index : Int) : Nat :=
  if s.m_table.length ≤ toSizeT index then INVALID_ADDR
  else
    let m_insn := s.m_table.getD (toSizeT index) default
    if s.startOffset = INVALID_ADDR then m_insn.address
    else toSizeT ((m_insn.address : Int) - (s.startOffset : Int))

end CDisasm

/-! ## The classifiers -/

/-- The member `CDisasm::fetchMnemType_Intel(insn)`: the four tests in front, then the `switch`
(its labels in source order), then the fall-through result. -/
def fetchMnemType_Intel (c : x86_insn) (insn : cs_insn) : mnem_type :=
  let cMnem := insn.id
  if cMnem = c.X86_INS_INVALID then MT_INVALID
  else if cMnem = c.X86_INS_JMP ∨ cMnem = c.X86_INS_LJMP then MT_JUMP
  else if c.X86_INS_JAE ≤ cMnem ∧ cMnem ≤ c.X86_INS_JS then MT_COND_JUMP
  else if c.X86_INS_MOV ≤ cMnem ∧ cMnem ≤ c.X86_INS_MOVZX then MT_MOV
  else if cMnem = c.X86_INS_LOOP ∨ cMnem = c.X86_INS_LOOPE ∨ cMnem = c.X86_INS_LOOPNE then
    MT_LOOP
  else if cMnem = c.X86_INS_CALL ∨ cMnem = c.X86_INS_LCALL then MT_CALL
  else if cMnem = c.X86_INS_RET ∨ cMnem = c.X86_INS_RETF ∨ cMnem = c.X86_INS_RETFQ then
    MT_RET
  else if cMnem = c.X86_INS_NOP then MT_NOP
  else if cMnem = c.X86_INS_POP ∨ cMnem = c.X86_INS_POPAW ∨ cMnem = c.X86_INS_POPAL
      ∨ cMnem = c.X86_INS_POPCNT ∨ cMnem = c.X86_INS_POPF ∨ cMnem = c.X86_INS_POPFD
      ∨ cMnem = c.X86_INS_POPFQ then MT_POP
  else if cMnem = c.X86_INS_PUSH ∨ cMnem = c.X86_INS_PUSHAW ∨ cMnem = c.X86_INS_PUSHAL
      ∨ cMnem = c.X86_INS_PUSHF ∨ cMnem = c.X86_INS_PUSHFD ∨ cMnem = c.X86_INS_PUSHFQ then
    MT_PUSH
  else if cMnem = c.X86_INS_INT3 then MT_INT3
  else if cMnem = c.X86_INS_INT then MT_INTX
  else MT_OTHER

/-- The `for` loop of `fetchMnemType_Arm64` over the groups that remain to be
scanned. -/
def arm64GroupScan (c : arm64_insn) (cMnem : Nat) : List Nat → mnem_type
  | [] => MT_OTHER
  | g :: rest =>
    if g = ARM64_GRP_CALL then MT_CALL
    else if g = ARM64_GRP_RET then MT_RET
    else if g = ARM64_GRP_INT then MT_INTX
    else if g = ARM64_GRP_JUMP ∨ g = ARM64_GRP_BRANCH_RELATIVE then
      if cMnem = c.ARM64_INS_CBZ ∨ cMnem = c.ARM64_INS_CBNZ ∨ cMnem = c.ARM64_INS_TBNZ
          ∨ cMnem = c.ARM64_INS_TBZ then MT_COND_JUMP
      else MT_JUMP
    else arm64GroupScan c cMnem rest

/-- The member `CDisasm::fetchMnemType_Arm64(insn, detail)`. -/
def fetchMnemType_Arm64 (c : arm64_insn) (insn : cs_insn) (detail : cs_detail) : mnem_type :=
  let cMnem := insn.id
  if cMnem = c.ARM64_INS_UDF then MT_INT3
  else if cMnem = c.ARM64_INS_INVALID then MT_INVALID
  else if cMnem = c.ARM64_INS_NOP then MT_NOP
  else arm64GroupScan c cMnem detail.groups

namespace CDisasm

/-- Modelled from the spec: `fetchMnemType` is defined outside CDisasm.cpp; "one
classifier variant per architecture": the CISC rules on the Intel architecture, the
RISC rules on ARM in 64-bit mode (the pair CDisasm.cpp tests for ARM), and no
category but `other` for a pair without classifier. -/
def fetchMnemType (s : CDisasm) (c : Opcodes) (insn : cs_insn) (detail : cs_detail) :
    mnem_type :=
  if s.m_arch = ARCH_INTEL then fetchMnemType_Intel c.x86 insn
  else if s.m_arch = ARCH_ARM ∧ s.m_bitMode = 64 then fetchMnemType_Arm64 c.arm64 insn detail
  else MT_OTHER

/-- Modelled from the spec: `getMnemType` is defined outside CDisasm.cpp; the
"per-index classification category" of the record and its detail; for an index
outside the table the query "returns invalid". -/
def getMnemType (s : CDisasm) (c : Opcodes) (index : Int) : mnem_type :=
  if s.m_table.length ≤ toSizeT index then MT_INVALID
  else s.fetchMnemType c (s.m_table.getD (toSizeT index) default)
    (s.m_details.getD (toSizeT index) default)

/-- Modelled from the spec: `isBranching` is defined outside CDisasm.cpp; "the
instruction is classified as branching (jump/conditional-jump/call/loop)". -/
def isBranching (s : CDisasm) (c : Opcodes) (index : Int) : Bool :=
  let m := s.getMnemType c index
  decide (m = MT_JUMP ∨ m = MT_COND_JUMP ∨ m = MT_CALL ∨ m = MT_LOOP)

/-- The member `CDisasm::isPushRet(index, ret_index)`: the returned flag and the value stored
through `ret_index` (`none`: nothing is stored); the outer `none` when
`m_details.at(index)` throws. -/
def isPushRet (s : CDisasm) (c : Opcodes) (index : Int) : Option (Bool × Option Int) :=
  if s._chunksCount ≤ toSizeT index then some (false, none)
  else do
    let m_insn ← s.m_table[toSizeT index]?
    let detail ← s.m_details[toSizeT index]?
    let mnem := s.fetchMnemType c m_insn detail
    if mnem = MT_PUSH then
      let y2 : Int := index + 1
      if s.m_table.length ≤ toSizeT y2 then some (false, none)
      else do
        let m_insn2 ← s.m_table[toSizeT y2]?
        let mnem2 := s.fetchMnemType c m_insn2 detail
        if mnem2 = MT_RET then some (true, some y2) else some (false, none)
    else some (false, none)

/-- The member `CDisasm::isAddrOperand(index)`; `none` when `m_details.at(index)` throws. -/
def isAddrOperand (s : CDisasm) (c : Opcodes) (index : Int) : Option Bool :=
  if s.m_table.length ≤ toSizeT index then some false
  else
    let mnem := s.getMnemType c index
    if mnem = MT_PUSH ∨ mnem = MT_MOV then some true
    else do
      let detail ← s.m_details[toSizeT index]?
      let cnt := detail.x86.op_count
      some ((List.range cnt).any fun argNum =>
        let op := detail.x86.operands.getD argNum default
        let type := op.type
        let opSize := op.size
        let reg := op.mem.base
        let isEIPrelative := reg = X86_REG_IP ∨ reg = X86_REG_EIP ∨ reg = X86_REG_RIP
        decide ((type = X86_OP_IMM ∧ 8 < opSize) ∨ (type = X86_OP_MEM ∧ isEIPrelative)))

/-- The member `CDisasm::isFollowable(y)`; `none` when a call of `at` throws. -/
def isFollowable (s : CDisasm) (c : Opcodes) (y : Int) : Option Bool :=
  if s.chunksCount ≤ toSizeT y then some false
  else if s.getRvaAt y = INVALID_ADDR then some false
  else do
    let pushRet ← if s.isBranching c y then some true else (s.isPushRet c y).map Prod.fst
    if !pushRet then some false
    else do
      let detail ← s.m_details[toSizeT y]?
      if s.m_arch = ARCH_INTEL then
        let cnt := detail.x86.op_count
        if cnt = 0 then some false
        else
          let op := detail.x86.operands.getD 0 default
          let op_type := op.type
          if op_type = X86_OP_IMM then some true
          else if op_type = X86_OP_MEM ∨ op_type = X86_OP_IMM then
            let reg := op.mem.base
            if reg ≤ X86_REG_INVALID then some true
            else if reg = X86_REG_IP ∨ reg = X86_REG_EIP ∨ reg = X86_REG_RIP then some true
            else some false
          else some false
      else if s.m_arch = ARCH_ARM ∧ s.m_bitMode = 64 then
        let cnt := detail.arm64.op_count
        if cnt = 0 then some false
        else if (detail.arm64.operands.getD 0 default).type = ARM64_OP_IMM then some true
        else some false
      else some false

end CDisasm

/-! ## The decode session -/

/-- The function `toCSmode(bitMode)`; the bit mode is the numeric value of
`Executable::exe_bits`. -/
def toCSmode (bitMode : Nat) : cs_mode :=
  if bitMode = 16 then CS_MODE_16
  else if bitMode = 32 then CS_MODE_32
  else if bitMode = 64 then CS_MODE_64
  else CS_MODE_32

/-- Modelled from the spec: `cs_disasm_iter` belongs to the decode engine;
"decodes exactly one instruction, advancing all three byref parameters by the
consumed size on success".  The result is the new buffer pointer, the new remaining
length, the new address and the decoded record, whose address is the address the
cursor had. -/
def cs_disasm_iter (e : Engine) (handle : Nat) (code : List Nat) (size : Nat) (address : Nat) :
    Option (List Nat × Nat × Nat × cs_insn × cs_detail) :=
  match e.cs_disasm handle (code.take size) address with
  | none => none
  | some (id, n, detail) =>
    some (code.drop n, toSizeT ((size : Int) - (n : Int)), toSizeT ((address : Int) + (n : Int)),
      ⟨id, address, n⟩, detail)

namespace CDisasm

/-- The constructor `CDisasm::CDisasm()`: an empty, uninitialized session whose
result record is the null pointer. -/
def new : CDisasm :=
  { is_init := false, handle := 0, m_insn := none, m_buf := [], m_bufSize := 0,
    m_disasmSize := 0, m_iptr := 0, m_offset := 0, startOffset := 0, m_RVA := 0,
    m_bitMode := 0, m_arch := ARCH_UNKNOWN, m_table := [], m_details := [] }

/-- The member `CDisasm::init_capstone(arch, bitMode)`. -/
def init_capstone (e : Engine) (s : CDisasm) (arch : exe_arch) (bitMode : Nat) : CDisasm × Bool :=
  let opened : Option (Nat × Nat) :=
    if arch = ARCH_INTEL then some (e.cs_open CS_ARCH_X86 (toCSmode bitMode))
    else if arch = ARCH_ARM ∧ bitMode = 64 then some (e.cs_open CS_ARCH_ARM64 CS_MODE_LITTLE_ENDIAN)
    else if arch = ARCH_ARM ∧ bitMode = 32 then some (e.cs_open CS_ARCH_ARM CS_MODE_LITTLE_ENDIAN)
    else none
  match opened with
  | none => (s, false)
  | some (err, handle) =>
    let s1 := { s with handle := handle }
    if err ≠ 0 then (s1, false)
    else if e.cs_malloc handle then
      ({ s1 with m_insn := some (default, default) }, true)
    else ({ s1 with handle := 0, m_insn := none }, false)

/-- The member `CDisasm::init(buf, bufSize, disasmSize, offset, arch, bitMode)`; `buf = none` is
the null pointer, `convertToVA` the address translation of the base class. -/
def init (e : Engine) (convertToVA : Nat → Nat) (s : CDisasm) (buf : Option (List Nat))
    (bufSize disasmSize offset : Nat) (arch : exe_arch) (bitMode : Nat) : CDisasm × Bool :=
  let s0 := { s with is_init := false }
  match buf with
  | none => (s0, false)
  | some bytes =>
    if bufSize = 0 then (s0, false)
    else
      let startOffset := convertToVA offset
      let s1 := { s0 with
        m_buf := bytes, m_bufSize := bufSize, m_disasmSize := disasmSize, m_iptr := 0,
        m_offset := 0, startOffset := startOffset,
        m_RVA := if startOffset ≠ INVALID_ADDR then startOffset else 0,
        m_bitMode := bitMode, m_arch := arch }
      let r := s1.init_capstone e s1.m_arch s1.m_bitMode
      ({ r.1 with is_init := r.2 }, r.2)

/-- The member `CDisasm::disasmNext()`: the session afterwards and the returned size.  `none`:
the engine is invoked with a null result record, which it dereferences. -/
def disasmNext (e : Engine) (s : CDisasm) : Option (CDisasm × Nat) :=
  if !s.is_init && s.m_insn.isSome then some (s, 0)
  else
    match s.m_insn with
    | none => none
    | some _ =>
      match cs_disasm_iter e s.handle s.m_buf s.m_bufSize s.m_RVA with
      | none => some ({ s with is_init := false }, 0)
      | some (buf, bufSize, rva, insn, detail) =>
        let step := insn.size
        some ({ s with m_buf := buf, m_bufSize := bufSize, m_RVA := rva,
                       m_insn := some (insn, detail), m_iptr := s.m_iptr + step }, step)

/-- The `while` loop of `fillTable` with `processedSize` bytes done.  Every pass that
does not leave the loop adds a non-zero size, so `fuel` passes suffice when `fuel`
is at least `m_disasmSize - processedSize`; `none` when a call of `disasmNext` does
not return (or the fuel ends with the loop condition still true). -/
def fillLoop (e : Engine) : Nat → CDisasm → Nat → Option CDisasm
  | 0, s, processedSize => if processedSize < s.m_disasmSize then none else some s
  | fuel + 1, s, processedSize =>
    if processedSize < s.m_disasmSize then
      match s.disasmNext e with
      | none => none
      | some (s1, step) =>
        if step = 0 then some s1
        else
          match s1.m_insn with
          | none => fillLoop e fuel s1 processedSize
          | some (next_insn, detail) =>
            fillLoop e fuel
              { s1 with m_table := s1.m_table ++ [next_insn],
                        m_details := s1.m_details ++ [detail] }
              (processedSize + next_insn.size)
    else some s

/-- The member `CDisasm::fillTable()`: the session afterwards and the returned flag. -/
def fillTable (e : Engine) (s : CDisasm) : Option (CDisasm × Bool) :=
  if !s.is_init then some (s, false)
  else
    match fillLoop e s.m_disasmSize s.clearTable.1 0 with
    | none => none
    | some s1 => some (s1, decide (s1.m_table.length ≠ 0))

/-- The operand count of a detail record on the session's architecture: the count
that `getArgVA` compares the operand number with. -/
def opCount (s : CDisasm) (d : cs_detail) : Nat :=
  if s.m_arch = ARCH_INTEL then d.x86.op_count else d.arm64.op_count

end CDisasm

/-! ## Sample sessions -/

/-- A 64-bit Intel session over the given table, initialized, cursor at rest. -/
def intelSession (bits : Nat) (table : List cs_insn) (details : List cs_detail) : CDisasm :=
  { is_init := true, handle := 1, m_insn := some (default, default), m_buf := [],
    m_bufSize := 0, m_disasmSize := 0, m_iptr := 0, m_offset := 0, startOffset := 4096,
    m_RVA := 4096, m_bitMode := bits, m_arch := ARCH_INTEL, m_table := table,
    m_details := details }

/-- The detail record of an x86 instruction with the given operands. -/
def x86Detail (ops : List cs_x86_op) : cs_detail :=
  ⟨[], ⟨ops.length, ops⟩, ⟨0, []⟩⟩

/-- One instruction of 7 bytes at address 4096 with the memory operand
`[rip - 4104]`: the operand's target `4096 + 7 - 4104` is the all-ones address. -/
def ripRelSession : CDisasm :=
  intelSession 64 [⟨0, 4096, 7⟩] [x86Detail [⟨X86_OP_MEM, 0, ⟨X86_REG_RIP, -4104⟩, 8⟩]]

/-- One instruction of 7 bytes at address 4096 with the memory operand
`[rip + 16]`. -/
def ripRelSession2 : CDisasm :=
  intelSession 64 [⟨0, 4096, 7⟩] [x86Detail [⟨X86_OP_MEM, 0, ⟨X86_REG_RIP, 16⟩, 8⟩]]

/-- The instruction `push -1` of 2 bytes at address 4096 in 64-bit mode: its operand
is the immediate -1, the all-ones 64-bit value. -/
def pushMinusOneSession : CDisasm :=
  intelSession 64 [⟨0, 4096, 2⟩] [x86Detail [⟨X86_OP_IMM, -1, ⟨0, 0⟩, 8⟩]]

/-- The instruction `push 0x401000` of 5 bytes at address 4096 in 32-bit mode. -/
def pushImmSession : CDisasm :=
  intelSession 32 [⟨0, 4096, 5⟩] [x86Detail [⟨X86_OP_IMM, 4198400, ⟨0, 0⟩, 4⟩]]

/-- The instruction `jmp [rax + 8]` of 3 bytes at address 4096 in 64-bit mode; RAX
is register 35 of capstone's numbering. -/
def jmpRaxSession : CDisasm :=
  intelSession 64 [⟨0, 4096, 3⟩] [x86Detail [⟨X86_OP_MEM, 0, ⟨35, 8⟩, 8⟩]]

/-- An opcode numbering that keeps the order of capstone's enumeration where the
classifier depends on it: the conditional jumps run from JAE to JS with JMP between
JL and JNE, the moves from MOV to MOVZX; LJMP, the loops, calls, returns, pushes and
pops lie outside both ranges.  The numbers themselves are illustrative. -/
def sampleX86 : x86_insn :=
  { X86_INS_INVALID := 0, X86_INS_CALL := 56, X86_INS_INT := 240, X86_INS_INT3 := 242,
    X86_INS_JAE := 253, X86_INS_JMP := 264, X86_INS_JS := 272, X86_INS_LCALL := 290,
    X86_INS_LJMP := 300, X86_INS_LOOP := 310, X86_INS_LOOPE := 311, X86_INS_LOOPNE := 312,
    X86_INS_MOV := 449, X86_INS_MOVZX := 480, X86_INS_NOP := 510, X86_INS_POP := 580,
    X86_INS_POPAW := 581, X86_INS_POPAL := 582, X86_INS_POPCNT := 583, X86_INS_POPF := 584,
    X86_INS_POPFD := 585, X86_INS_POPFQ := 586, X86_INS_PUSH := 609, X86_INS_PUSHAW := 610,
    X86_INS_PUSHAL := 611, X86_INS_PUSHF := 612, X86_INS_PUSHFD := 613,
    X86_INS_PUSHFQ := 614, X86_INS_RET := 633, X86_INS_RETF := 634, X86_INS_RETFQ := 635 }

/-- An ARM64 opcode numbering with pairwise different ids; the numbers themselves
are illustrative. -/
def sampleArm64 : arm64_insn :=
  { ARM64_INS_INVALID := 0, ARM64_INS_CBNZ := 100, ARM64_INS_CBZ := 101,
    ARM64_INS_NOP := 500, ARM64_INS_TBNZ := 900, ARM64_INS_TBZ := 901, ARM64_INS_UDF := 950 }

/-- The sample numbering of both architectures. -/
def sampleOpcodes : Opcodes := ⟨sampleX86, sampleArm64⟩

/-- The sequence `push 0x401000; ret` at address 4096 in 32-bit mode. -/
def pushRetSession : CDisasm :=
  intelSession 32 [⟨sampleX86.X86_INS_PUSH, 4096, 5⟩, ⟨sampleX86.X86_INS_RET, 4101, 1⟩]
    [x86Detail [⟨X86_OP_IMM, 4198400, ⟨0, 0⟩, 4⟩], x86Detail []]

/-! ## The decode pass in the spec's words -/

/-- The instructions decoded during one pass over the buffer, in the spec's words:
single-step decode is invoked "while the cumulative decoded byte count is below the
configured size bound", and the pass "stops early on the first decode failure".  The
cursor is the buffer pointer, the remaining length and the next address; `fuel`
bounds the number of steps. -/
def decodedFrom (e : Engine) (handle bound : Nat) :
    Nat → List Nat → Nat → Nat → Nat → List (cs_insn × cs_detail)
  | 0, _, _, _, _ => []
  | fuel + 1, buf, bufSize, rva, processed =>
    if processed < bound then
      match cs_disasm_iter e handle buf bufSize rva with
      | none => []
      | some (buf1, bufSize1, rva1, insn, detail) =>
        if insn.size = 0 then []
        else (insn, detail) :: decodedFrom e handle bound fuel buf1 bufSize1 rva1
          (processed + insn.size)
    else []

/-- The instructions decoded during a call of `fillTable` on the session `s`. -/
def decodedDuringCall (e : Engine) (s : CDisasm) : List (cs_insn × cs_detail) :=
  decodedFrom e s.handle s.m_disasmSize s.m_disasmSize s.m_buf s.m_bufSize s.m_RVA 0

/-- The engine yields, from the cursor on and in this order, the instructions of the
list, each of positive size, and then fails. -/
def yields (e : Engine) (handle : Nat) :
    List Nat → Nat → Nat → List (cs_insn × cs_detail) → Bool
  | buf, bufSize, rva, [] => (cs_disasm_iter e handle buf bufSize rva).isNone
  | buf, bufSize, rva, (insn, detail) :: rest =>
    match cs_disasm_iter e handle buf bufSize rva with
    | none => false
    | some (buf1, bufSize1, rva1, insn1, detail1) =>
      decide (insn1 = insn) && decide (detail1 = detail) && decide (0 < insn.size)
        && yields e handle buf1 bufSize1 rva1 rest

/-- A scripted engine for three x86 encodings: `90` is `nop`, `C3` is `ret`, `68`
with four more bytes is `push imm32`; every other byte sequence, the empty one
included, fails to decode.  Every handle opens and every result record is allocated. -/
def sampleEngine : Engine :=
  { cs_open := fun _ _ => (0, 1)
    cs_malloc := fun _ => true
    cs_disasm := fun _ bytes _ =>
      match bytes with
      | 144 :: _ => some (sampleX86.X86_INS_NOP, 1, x86Detail [])
      | 195 :: _ => some (sampleX86.X86_INS_RET, 1, x86Detail [])
      | 104 :: b0 :: b1 :: b2 :: b3 :: _ =>
        some (sampleX86.X86_INS_PUSH, 5,
          x86Detail [⟨X86_OP_IMM, b0 + 256 * b1 + 65536 * b2 + 16777216 * b3, ⟨0, 0⟩, 4⟩])
      | _ => none }

/-- A fresh session after `init` over the one-byte buffer `90` (`nop`), with the
given size bound, offset 4096 mapped to the address 4096, Intel, 32 bits. -/
def nopSession (disasmSize : Nat) : CDisasm :=
  (CDisasm.new.init sampleEngine id (some [144]) 1 disasmSize 4096 ARCH_INTEL 32).1

/-- A fresh session after `init` over the buffer of `push 0x401000; ret`, bound 6. -/
def pushRetFresh : CDisasm :=
  (CDisasm.new.init sampleEngine id (some [104, 0, 16, 64, 0, 195]) 6 6 4096 ARCH_INTEL 32).1

/-- The session `nopSession 5` after its first `fillTable`: the pass decoded the
`nop`, then failed at the end of the buffer, which marks the session uninitialized;
the table holds the `nop`. -/
def staleSession : CDisasm :=
  { is_init := false, handle := 1, m_insn := some (⟨sampleX86.X86_INS_NOP, 4096, 1⟩, x86Detail []),
    m_buf := [], m_bufSize := 0, m_disasmSize := 5, m_iptr := 1, m_offset := 0,
    startOffset := 4096, m_RVA := 4097, m_bitMode := 32, m_arch := ARCH_INTEL,
    m_table := [⟨sampleX86.X86_INS_NOP, 4096, 1⟩], m_details := [x86Detail []] }

/-- The session `nopSession 1` after its first `fillTable`: the pass decoded the
`nop` and stopped at the bound; the session is still initialized and its buffer is
exhausted. -/
def exhaustedSession : CDisasm :=
  { is_init := true, handle := 1, m_insn := some (⟨sampleX86.X86_INS_NOP, 4096, 1⟩, x86Detail []),
    m_buf := [], m_bufSize := 0, m_disasmSize := 1, m_iptr := 1, m_offset := 0,
    startOffset := 4096, m_RVA := 4097, m_bitMode := 32, m_arch := ARCH_INTEL,
    m_table := [⟨sampleX86.X86_INS_NOP, 4096, 1⟩], m_details := [x86Detail []] }

/-- The case labels of the `switch` in `fetchMnemType_Intel`, in source order. -/
def x86_insn.caseLabels (c : x86_insn) : List Nat :=
  [c.X86_INS_LOOP, c.X86_INS_LOOPE, c.X86_INS_LOOPNE, c.X86_INS_CALL, c.X86_INS_LCALL,
   c.X86_INS_RET, c.X86_INS_RETF, c.X86_INS_RETFQ, c.X86_INS_NOP, c.X86_INS_POP,
   c.X86_INS_POPAW, c.X86_INS_POPAL, c.X86_INS_POPCNT, c.X86_INS_POPF, c.X86_INS_POPFD,
   c.X86_INS_POPFQ, c.X86_INS_PUSH, c.X86_INS_PUSHAW, c.X86_INS_PUSHAL, c.X86_INS_PUSHF,
   c.X86_INS_PUSHFD, c.X86_INS_PUSHFQ, c.X86_INS_INT3, c.X86_INS_INT]

/-- The opcodes that the classifier tests one by one are pairwise different, as the
enumerators of one enumeration and the labels of one `switch` are. -/
@[reducible] def x86_insn.Distinct (c : x86_insn) : Prop :=
  (c.X86_INS_INVALID :: c.X86_INS_JMP :: c.X86_INS_LJMP :: c.caseLabels).Nodup

/-- An ARM64 instruction whose groups are listed as jump first and call second. -/
def jumpCallDetail : cs_detail := ⟨[ARM64_GRP_JUMP, ARM64_GRP_CALL], ⟨0, []⟩, ⟨0, []⟩⟩

/-- A session constructed and then given to `init` with the ARM architecture in 16-bit
mode, a pair without engine mapping: `init` returns false and the result record is
still the null pointer. -/
def neverOpenedSession : CDisasm :=
  (CDisasm.new.init sampleEngine id (some [144]) 1 1 4096 ARCH_ARM 16).1


/-- The sequence `push -1; ret` at address 4096 in 64-bit mode: the operand of the
push is the immediate -1, the all-ones 64-bit value. -/
def pushMinusOneRetSession : CDisasm :=
  intelSession 64 [⟨sampleX86.X86_INS_PUSH, 4096, 2⟩, ⟨sampleX86.X86_INS_RET, 4098, 1⟩]
    [x86Detail [⟨X86_OP_IMM, -1, ⟨0, 0⟩, 8⟩], x86Detail []]

/-- An ARM session in 64-bit mode over one instruction of the call group with the
immediate operand 8192. -/
def arm64Session : CDisasm :=
  { is_init := true, handle := 1, m_insn := some (default, default), m_buf := [],
    m_bufSize := 0, m_disasmSize := 0, m_iptr := 0, m_offset := 0, startOffset := 4096,
    m_RVA := 4096, m_bitMode := 64, m_arch := ARCH_ARM, m_table := [⟨77, 4096, 4⟩],
    m_details := [⟨[ARM64_GRP_CALL], ⟨0, []⟩, ⟨1, [⟨ARM64_OP_IMM, 8192⟩]⟩⟩] }

/-- The value of the first operand of instruction `y` as a 64-bit address, before
`getArgVA` compares it with the sentinel: on the Intel architecture the immediate,
for a memory operand without base register the displacement trimmed to the bit mode,
for a memory operand with another base the target `A + S + D`; on ARM the
immediate. -/
def firstOperandValue (s : CDisasm) (y : Int) : Nat :=
  let insn := s.m_table.getD (toSizeT y) default
  let d := s.m_details.getD (toSizeT y) default
  if s.m_arch = ARCH_INTEL then
    let op := d.x86.operands.getD 0 default
    if op.type = X86_OP_IMM then toSizeT op.imm
    else if op.mem.base = X86_REG_INVALID then trimToBitMode op.mem.disp s.m_bitMode
    else toSizeT ((insn.address : Int) + (insn.size : Int) + op.mem.disp)
  else toSizeT (d.arm64.operands.getD 0 default).imm


/-- The session states that calls of the public operations can produce from a newly
constructed session, with any engine and any address translation at each call. -/
inductive Reachable : CDisasm → Prop where
  | new : Reachable CDisasm.new
  | init (e : Engine) (convertToVA : Nat → Nat) (s : CDisasm) (buf : Option (List Nat))
      (bufSize disasmSize offset : Nat) (arch : exe_arch) (bitMode : Nat) :
      Reachable s →
      Reachable (s.init e convertToVA buf bufSize disasmSize offset arch bitMode).1
  | clearTable (s : CDisasm) : Reachable s → Reachable s.clearTable.1
  | disasmNext (e : Engine) (s s1 : CDisasm) (n : Nat) :
      Reachable s → s.disasmNext e = some (s1, n) → Reachable s1
  | fillTable (e : Engine) (s s1 : CDisasm) (b : Bool) :
      Reachable s → s.fillTable e = some (s1, b) → Reachable s1

/-- The invariant of the session: the two sequences have equal length, and an
initialized session has its result record allocated. -/
def SessionInv (s : CDisasm) : Prop :=
  s.m_table.length = s.m_details.length ∧ (s.is_init = true → s.m_insn.isSome = true)


/-! ## Arithmetic of the conversions -/

theorem toSizeT_natCast (n : Nat) (h : n < 18446744073709551616) : toSizeT (n : Int) = n := by
  unfold toSizeT
  omega

theorem toSizeT_lt (i : Int) : toSizeT i < 18446744073709551616 := by
  unfold toSizeT
  omega

theorem toSizeT_of_neg (i : Int) (h1 : -2147483648 ≤ i) (h2 : i < 0) :
    18446744071562067968 ≤ toSizeT i := by
  unfold toSizeT
  omega

theorem toSizeT_of_nonneg (i : Int) (h1 : 0 ≤ i) (h2 : i ≤ 2147483647) :
    toSizeT i = i.toNat := by
  unfold toSizeT
  omega

theorem trimToBitMode_toSizeT (x : Int) (bits : Nat) (h : bits ≤ 64) :
    trimToBitMode ((toSizeT x : Nat) : Int) bits = trimToBitMode x bits := by
  unfold trimToBitMode toSizeT
  have h0 : (0 : Int) ≤ x % 18446744073709551616 := Int.emod_nonneg _ (by norm_num)
  rw [Int.toNat_of_nonneg h0]
  have hd : ((2 : Int) ^ bits) ∣ 18446744073709551616 := by
    have : (18446744073709551616 : Int) = 2 ^ 64 := by norm_num
    rw [this]
    exact pow_dvd_pow 2 h
  rw [Int.emod_emod_of_dvd x hd]

/-! ## Operand resolution -/

/-- C1 (as amended): on the Intel architecture, for a valid index `i` and an operand
number `k` below the operand count, when operand `k` is a memory operand whose base
register is IP, EIP or RIP, `getArgVA` computes the 64-bit target `A + S + D`; if
that target is not the sentinel it reports ok and returns the target trimmed to the
bit mode, and if it is the sentinel it reports failure. -/
theorem getArgVA_ip_relative (s : CDisasm) (i k : Nat)
    (hi : i < s.m_table.length) (hi31 : i ≤ 2147483647) (hk31 : k ≤ 2147483647)
    (hdet : s.m_details.length = s.m_table.length)
    (hbits : s.m_bitMode = 16 ∨ s.m_bitMode = 32 ∨ s.m_bitMode = 64)
    (harch : s.m_arch = ARCH_INTEL)
    (hk : k < (s.m_details.getD i default).x86.op_count)
    (hmem : (((s.m_details.getD i default).x86.operands.getD k default).type) = X86_OP_MEM)
    (hbase : (((s.m_details.getD i default).x86.operands.getD k default).mem.base) = X86_REG_IP
      ∨ (((s.m_details.getD i default).x86.operands.getD k default).mem.base) = X86_REG_EIP
      ∨ (((s.m_details.getD i default).x86.operands.getD k default).mem.base) = X86_REG_RIP) :
    s.getArgVA i k =
      some (if toSizeT (((s.m_table.getD i default).address : Int)
                + ((s.m_table.getD i default).size : Int)
                + ((s.m_details.getD i default).x86.operands.getD k default).mem.disp)
              ≠ INVALID_ADDR
            then (trimToBitMode (((s.m_table.getD i default).address : Int)
                + ((s.m_table.getD i default).size : Int)
                + ((s.m_details.getD i default).x86.operands.getD k default).mem.disp)
                s.m_bitMode, true)
            else (INVALID_ADDR, false)) := by
  have hti : toSizeT (i : Int) = i := toSizeT_natCast i (by omega)
  have htk : toSizeT (k : Int) = k := toSizeT_natCast k (by omega)
  have hi2 : i < s.m_details.length := by omega
  have hb64 : s.m_bitMode ≤ 64 := by omega
  have hd : s.m_details.getD i default = s.m_details[i] := by
    simp [List.getD_eq_getElem?_getD, List.getElem?_eq_getElem hi2]
  rw [hd] at hk hmem hbase ⊢
  unfold CDisasm.getArgVA
  simp only [hti, htk, List.getElem?_eq_getElem hi, List.getElem?_eq_getElem hi2]
  simp only [Nat.not_le.mpr hi, Nat.not_le.mpr hk, harch, hmem, hbase, if_true, if_false,
    Option.bind_eq_bind, Option.some_bind, CDisasm.getVaAt, CDisasm.getChunkSize,
    CDisasm.cleanup, getJmpDestAddr, reduceCtorEq, hti]
  split_ifs with h1
  · rw [trimToBitMode_toSizeT _ _ hb64]
  · rw [not_not.mp h1]

/-- C1, the witness: the instruction at 4096 with operand `[rip + 16]` resolves to
4119. -/
theorem getArgVA_ip_relative_witness :
    ripRelSession2.getArgVA 0 0 = some (4119, true) :=
  getArgVA_ip_relative ripRelSession2 0 0 (by decide) (by decide) (by decide) (by decide)
    (by decide) (by decide) (by decide) (by decide) (by decide)

/-- C1, the counterexample: the operand `[rip - 4104]` of the 7-byte instruction at
4096 is a memory operand with base RIP and operand number below the count, its target
`A + S + D` trims to the all-ones address, and `getArgVA` reports failure. -/
theorem getArgVA_ip_relative_counterexample :
    (0 : Nat) < ripRelSession.m_table.length
      ∧ ripRelSession.m_arch = ARCH_INTEL
      ∧ 0 < (ripRelSession.m_details.getD 0 default).x86.op_count
      ∧ ((ripRelSession.m_details.getD 0 default).x86.operands.getD 0 default).type = X86_OP_MEM
      ∧ ((ripRelSession.m_details.getD 0 default).x86.operands.getD 0 default).mem.base
          = X86_REG_RIP
      ∧ ripRelSession.getArgVA 0 0
          ≠ some (trimToBitMode ((4096 : Int) + 7 + (-4104)) ripRelSession.m_bitMode, true)
      ∧ ripRelSession.getArgVA 0 0 = some (INVALID_ADDR, false) := by
  decide

/-- C4 (as amended): on the Intel architecture, for a valid index `i` and an operand
number `k` below the operand count, when operand `k` is an immediate with value `v`:
if `v` (as a 64-bit value) is not the sentinel, `getArgVA` reports ok and returns `v`
trimmed to the bit mode; if `v` is the sentinel it reports failure. -/
theorem getArgVA_immediate (s : CDisasm) (i k : Nat)
    (hi : i < s.m_table.length) (hi31 : i ≤ 2147483647) (hk31 : k ≤ 2147483647)
    (hdet : s.m_details.length = s.m_table.length)
    (hbits : s.m_bitMode = 16 ∨ s.m_bitMode = 32 ∨ s.m_bitMode = 64)
    (harch : s.m_arch = ARCH_INTEL)
    (hk : k < (s.m_details.getD i default).x86.op_count)
    (himm : (((s.m_details.getD i default).x86.operands.getD k default).type) = X86_OP_IMM) :
    s.getArgVA i k =
      some (if toSizeT ((s.m_details.getD i default).x86.operands.getD k default).imm
              ≠ INVALID_ADDR
            then (trimToBitMode ((s.m_details.getD i default).x86.operands.getD k default).imm
                s.m_bitMode, true)
            else (INVALID_ADDR, false)) := by
  have hti : toSizeT (i : Int) = i := toSizeT_natCast i (by omega)
  have htk : toSizeT (k : Int) = k := toSizeT_natCast k (by omega)
  have hi2 : i < s.m_details.length := by omega
  have hb64 : s.m_bitMode ≤ 64 := by omega
  have hd : s.m_details.getD i default = s.m_details[i] := by
    simp [List.getD_eq_getElem?_getD, List.getElem?_eq_getElem hi2]
  rw [hd] at hk himm ⊢
  unfold CDisasm.getArgVA
  simp only [hti, htk, List.getElem?_eq_getElem hi, List.getElem?_eq_getElem hi2]
  simp only [Nat.not_le.mpr hi, Nat.not_le.mpr hk, harch, himm, if_true, if_false,
    Option.bind_eq_bind, Option.some_bind, CDisasm.cleanup, reduceCtorEq]
  split_ifs with h1
  · rw [trimToBitMode_toSizeT _ _ hb64]
  · rw [not_not.mp h1]

/-- C4, the witness: `push 0x401000` in 32-bit mode resolves to 0x401000. -/
theorem getArgVA_immediate_witness :
    pushImmSession.getArgVA 0 0 = some (4198400, true) :=
  getArgVA_immediate pushImmSession 0 0 (by decide) (by decide) (by decide) (by decide)
    (by decide) (by decide) (by decide) (by decide)

/-- C4, the counterexample: the operand of `push -1` is an immediate below the operand
count of a valid index, yet `getArgVA` reports failure instead of the value trimmed
to 64 bits. -/
theorem getArgVA_immediate_counterexample :
    (0 : Nat) < pushMinusOneSession.m_table.length
      ∧ pushMinusOneSession.m_arch = ARCH_INTEL
      ∧ 0 < (pushMinusOneSession.m_details.getD 0 default).x86.op_count
      ∧ ((pushMinusOneSession.m_details.getD 0 default).x86.operands.getD 0 default)
          = ⟨X86_OP_IMM, -1, ⟨0, 0⟩, 8⟩
      ∧ pushMinusOneSession.getArgVA 0 0
          ≠ some (trimToBitMode (-1) pushMinusOneSession.m_bitMode, true)
      ∧ pushMinusOneSession.getArgVA 0 0 = some (INVALID_ADDR, false) := by
  decide

/-- C5: `getArgVA` returns the sentinel with ok = false when the index is not a valid
table index (a negative one included), when the operand number is not below the
operand count (a negative one included), and, on the Intel architecture, when the
operand is a memory operand whose base is a register other than IP, EIP and RIP. -/
theorem getArgVA_fails (s : CDisasm) (i k : Int) (hi : IsCInt i) (hk : IsCInt k)
    (hlen : s.m_table.length ≤ 2147483647)
    (hdet : s.m_details.length = s.m_table.length)
    (hcnt : ∀ d ∈ s.m_details, d.x86.op_count ≤ 255 ∧ d.arm64.op_count ≤ 255)
    (h : (i < 0 ∨ (s.m_table.length : Int) ≤ i)
      ∨ (k < 0 ∨ (s.opCount (s.m_details.getD i.toNat default) : Int) ≤ k)
      ∨ (s.m_arch = ARCH_INTEL
          ∧ ((s.m_details.getD i.toNat default).x86.operands.getD k.toNat default).type
              = X86_OP_MEM
          ∧ X86_REG_INVALID
              < ((s.m_details.getD i.toNat default).x86.operands.getD k.toNat default).mem.base
          ∧ ((s.m_details.getD i.toNat default).x86.operands.getD k.toNat default).mem.base
              ≠ X86_REG_IP
          ∧ ((s.m_details.getD i.toNat default).x86.operands.getD k.toNat default).mem.base
              ≠ X86_REG_EIP
          ∧ ((s.m_details.getD i.toNat default).x86.operands.getD k.toNat default).mem.base
              ≠ X86_REG_RIP)) :
    s.getArgVA i k = some (INVALID_ADDR, false) := by
  obtain ⟨hi1, hi2⟩ := hi
  obtain ⟨hk1, hk2⟩ := hk
  by_cases hneg : i < 0
  · have := toSizeT_of_neg i hi1 hneg
    unfold CDisasm.getArgVA
    rw [if_pos (by omega)]
  have hi0 : 0 ≤ i := by omega
  have hti : toSizeT i = i.toNat := toSizeT_of_nonneg i hi0 hi2
  by_cases hbig : (s.m_table.length : Int) ≤ i
  · unfold CDisasm.getArgVA
    rw [if_pos (by omega)]
  have hin : i.toNat < s.m_table.length := by omega
  have hin2 : i.toNat < s.m_details.length := by omega
  have hd : s.m_details.getD i.toNat default = s.m_details[i.toNat] := by
    simp [List.getD_eq_getElem?_getD, List.getElem?_eq_getElem hin2]
  have hc := hcnt _ (List.getElem_mem hin2)
  rw [hd] at h
  unfold CDisasm.getArgVA
  simp only [hti, List.getElem?_eq_getElem hin, List.getElem?_eq_getElem hin2,
    Nat.not_le.mpr hin, if_false, Option.bind_eq_bind, Option.some_bind]
  by_cases hkneg : k < 0
  · have := toSizeT_of_neg k hk1 hkneg
    split_ifs <;> first | rfl | omega
  have hk0 : 0 ≤ k := by omega
  have htk : toSizeT k = k.toNat := toSizeT_of_nonneg k hk0 hk2
  rw [htk]
  rcases h with h | h | h
  · omega
  · rcases h with h | h
    · omega
    · unfold CDisasm.opCount at h
      split_ifs at h ⊢ <;> first | rfl | omega
  · obtain ⟨ha, hm, hb0, hb1, hb2, hb3⟩ := h
    simp only [ha, hm, if_true, reduceCtorEq, if_false, hb1, hb2, hb3, or_self,
      Nat.not_le.mpr hb0, CDisasm.cleanup]
    split_ifs with h1 h2
    · rfl
    · exact absurd rfl h2
    · rfl

/-- C5, the witness: operand number -1 of a valid instruction is refused. -/
theorem getArgVA_fails_witness :
    pushImmSession.getArgVA 0 (-1) = some (INVALID_ADDR, false) :=
  getArgVA_fails pushImmSession 0 (-1) (by decide) (by decide) (by decide) (by decide)
    (by decide) (by decide)

/-! ## Classification through the table -/

theorem arm64GroupScan_ne_push (c : arm64_insn) (cMnem : Nat) (gs : List Nat) :
    arm64GroupScan c cMnem gs ≠ MT_PUSH := by
  induction gs with
  | nil => simp [arm64GroupScan]
  | cons g rest ih =>
    unfold arm64GroupScan
    split_ifs <;> first | exact ih | simp

theorem fetchMnemType_Arm64_ne_push (c : arm64_insn) (insn : cs_insn) (d : cs_detail) :
    fetchMnemType_Arm64 c insn d ≠ MT_PUSH := by
  unfold fetchMnemType_Arm64
  simp only
  split_ifs <;> first | exact arm64GroupScan_ne_push _ _ _ | simp

theorem fetchMnemType_push_intel (s : CDisasm) (c : Opcodes) (insn : cs_insn) (d : cs_detail)
    (h : s.fetchMnemType c insn d = MT_PUSH) : s.m_arch = ARCH_INTEL := by
  unfold CDisasm.fetchMnemType at h
  split_ifs at h with h1 h2
  · exact h1
  · exact absurd h (fetchMnemType_Arm64_ne_push _ _ _)

theorem fetchMnemType_intel (s : CDisasm) (c : Opcodes) (insn : cs_insn) (d : cs_detail)
    (h : s.m_arch = ARCH_INTEL) : s.fetchMnemType c insn d = fetchMnemType_Intel c.x86 insn := by
  unfold CDisasm.fetchMnemType
  rw [if_pos h]

theorem getMnemType_valid (s : CDisasm) (c : Opcodes) (n : Nat) (h1 : n < s.m_table.length)
    (h2 : n < s.m_details.length) (h3 : n < 18446744073709551616) :
    s.getMnemType c (n : Int) = s.fetchMnemType c s.m_table[n] s.m_details[n] := by
  unfold CDisasm.getMnemType
  rw [toSizeT_natCast n h3, if_neg (by omega)]
  simp [List.getD_eq_getElem?_getD, List.getElem?_eq_getElem h1, List.getElem?_eq_getElem h2]

theorem getMnemType_invalid (s : CDisasm) (c : Opcodes) (i : Int)
    (h : s.m_table.length ≤ toSizeT i) : s.getMnemType c i = MT_INVALID := by
  unfold CDisasm.getMnemType
  rw [if_pos h]

theorem isPushRet_eq (s : CDisasm) (c : Opcodes) (i : Int) (hi : IsCInt i)
    (hlen : s.m_table.length ≤ 2147483647)
    (hdet : s.m_details.length = s.m_table.length) :
    s.isPushRet c i =
      some (if (0 ≤ i + 1 ∧ i + 1 < (s.m_table.length : Int))
                ∧ s.getMnemType c i = MT_PUSH ∧ s.getMnemType c (i + 1) = MT_RET
            then (true, some (i + 1)) else (false, none)) := by
  obtain ⟨hi1, hi2⟩ := hi
  by_cases hneg : i < 0
  · have h1 := toSizeT_of_neg i hi1 hneg
    have h2 : s.getMnemType c i = MT_INVALID := getMnemType_invalid s c i (by omega)
    unfold CDisasm.isPushRet CDisasm._chunksCount
    rw [if_pos (by omega), h2]
    simp
  have hi0 : 0 ≤ i := by omega
  have hti : toSizeT i = i.toNat := toSizeT_of_nonneg i hi0 hi2
  by_cases hbig : (s.m_table.length : Int) ≤ i
  · have h2 : s.getMnemType c i = MT_INVALID := getMnemType_invalid s c i (by omega)
    unfold CDisasm.isPushRet CDisasm._chunksCount
    rw [if_pos (by omega), h2]
    simp
  have hin : i.toNat < s.m_table.length := by omega
  have hin2 : i.toNat < s.m_details.length := by omega
  have hicast : ((i.toNat : Nat) : Int) = i := Int.toNat_of_nonneg hi0
  have hg := getMnemType_valid s c i.toNat hin hin2 (by omega)
  rw [hicast] at hg
  unfold CDisasm.isPushRet CDisasm._chunksCount
  simp only [hti, List.getElem?_eq_getElem hin, List.getElem?_eq_getElem hin2,
    Nat.not_le.mpr hin, if_false, Option.bind_eq_bind, Option.some_bind]
  rw [← hg]
  by_cases hp : s.getMnemType c i = MT_PUSH
  · have harch : s.m_arch = ARCH_INTEL := fetchMnemType_push_intel s c _ _ (hg ▸ hp)
    have ht1 : toSizeT (i + 1) = i.toNat + 1 := by
      rw [toSizeT_of_nonneg (i + 1) (by omega) (by omega)]
      omega
    rw [if_pos hp, ht1]
    by_cases hlast : s.m_table.length ≤ i.toNat + 1
    · rw [if_pos hlast, if_neg (by omega)]
    · have hin1 : i.toNat + 1 < s.m_table.length := by omega
      have hin12 : i.toNat + 1 < s.m_details.length := by omega
      have hg1 := getMnemType_valid s c (i.toNat + 1) hin1 hin12 (by omega)
      rw [Nat.cast_add, hicast, Nat.cast_one, fetchMnemType_intel s c _ _ harch] at hg1
      simp only [if_neg hlast, List.getElem?_eq_getElem hin1, Option.some_bind,
        fetchMnemType_intel s c _ _ harch, ← hg1]
      by_cases hr : s.getMnemType c (i + 1) = MT_RET
      · rw [if_pos hr, if_pos ⟨⟨by omega, by omega⟩, hp, hr⟩]
      · rw [if_neg hr, if_neg (fun h => hr h.2.2)]
  · rw [if_neg hp, if_neg (fun h => hp h.2.1)]

/-- C3: `isPushRet(i)` returns true exactly when `i + 1` is a valid table index,
instruction `i` classifies as push and instruction `i + 1` classifies as return; the
return index it then stores is `i + 1`; otherwise (so also at the last index and
outside the table) it returns false and stores nothing. -/
theorem isPushRet_iff (s : CDisasm) (c : Opcodes) (i : Int) (hi : IsCInt i)
    (hlen : s.m_table.length ≤ 2147483647)
    (hdet : s.m_details.length = s.m_table.length) :
    s.isPushRet c i =
      some (if (0 ≤ i + 1 ∧ i + 1 < (s.m_table.length : Int))
                ∧ s.getMnemType c i = MT_PUSH ∧ s.getMnemType c (i + 1) = MT_RET
            then (true, some (i + 1)) else (false, none)) :=
  isPushRet_eq s c i hi hlen hdet

/-- C3, the witness: in `push 0x401000; ret` the push at index 0 is followed by
the return at index 1. -/
theorem isPushRet_iff_witness :
    pushRetSession.isPushRet sampleOpcodes 0 = some (true, some 1) :=
  isPushRet_iff pushRetSession sampleOpcodes 0 (by decide) (by decide) (by decide)

/-! ## Followable instructions -/

theorem isFollowable_intel_eq (s : CDisasm) (c : Opcodes) (y : Int) (hy : IsCInt y)
    (hlen : s.m_table.length ≤ 2147483647)
    (hdet : s.m_details.length = s.m_table.length)
    (harch : s.m_arch = ARCH_INTEL) :
    s.isFollowable c y =
        some (decide ((0 ≤ y ∧ y < (s.m_table.length : Int))
          ∧ (s.m_table.getD y.toNat default).address ≠ INVALID_ADDR
          ∧ (s.isBranching c y = true ∨ (s.isPushRet c y).map Prod.fst = some true)
          ∧ 0 < (s.m_details.getD y.toNat default).x86.op_count
          ∧ (((s.m_details.getD y.toNat default).x86.operands.getD 0 default).type = X86_OP_IMM
            ∨ (((s.m_details.getD y.toNat default).x86.operands.getD 0 default).type = X86_OP_MEM
              ∧ ((s.m_details.getD y.toNat default).x86.operands.getD 0 default).mem.base
                  = X86_REG_INVALID)
            ∨ (((s.m_details.getD y.toNat default).x86.operands.getD 0 default).type = X86_OP_MEM
              ∧ (((s.m_details.getD y.toNat default).x86.operands.getD 0 default).mem.base
                    = X86_REG_IP
                ∨ ((s.m_details.getD y.toNat default).x86.operands.getD 0 default).mem.base
                    = X86_REG_EIP
                ∨ ((s.m_details.getD y.toNat default).x86.operands.getD 0 default).mem.base
                    = X86_REG_RIP))))) := by
  obtain ⟨hy1, hy2⟩ := hy
  by_cases hneg : y < 0
  · have h1 := toSizeT_of_neg y hy1 hneg
    have h2 : s.isFollowable c y = some false := by
      unfold CDisasm.isFollowable CDisasm.chunksCount CDisasm._chunksCount
      rw [if_pos (by omega)]
    rw [h2]
    have : ¬ (0 ≤ y ∧ y < (s.m_table.length : Int)) := by omega
    simp [this]
  have hy0 : 0 ≤ y := by omega
  have hty : toSizeT y = y.toNat := toSizeT_of_nonneg y hy0 hy2
  by_cases hbig : (s.m_table.length : Int) ≤ y
  · have h2 : s.isFollowable c y = some false := by
      unfold CDisasm.isFollowable CDisasm.chunksCount CDisasm._chunksCount
      rw [if_pos (by omega)]
    rw [h2]
    have : ¬ (0 ≤ y ∧ y < (s.m_table.length : Int)) := by omega
    simp [this]
  have hin : y.toNat < s.m_table.length := by omega
  have hin2 : y.toNat < s.m_details.length := by omega
  have hrange : 0 ≤ y ∧ y < (s.m_table.length : Int) := ⟨hy0, by omega⟩
  have hd : s.m_details.getD y.toNat default = s.m_details[y.toNat] := by
    simp [List.getD_eq_getElem?_getD, List.getElem?_eq_getElem hin2]
  obtain ⟨pr, hpr⟩ : ∃ pr, s.isPushRet c y = some pr :=
    ⟨_, isPushRet_eq s c y ⟨hy1, hy2⟩ hlen hdet⟩
  rw [hd, hpr]
  unfold CDisasm.isFollowable CDisasm.chunksCount CDisasm._chunksCount CDisasm.getRvaAt
  simp only [hty, Nat.not_le.mpr hin, if_false, hpr, Option.map_some',
    List.getElem?_eq_getElem hin2, harch, if_true, Option.bind_eq_bind, Option.some_bind,
    X86_REG_INVALID, Nat.le_zero, hrange, true_and, and_self]
  generalize (s.m_table.getD y.toNat default).address = A
  generalize s.isBranching c y = B
  generalize s.m_details[y.toNat].x86.op_count = n
  generalize (s.m_details[y.toNat].x86.operands.getD 0 default) = op
  obtain ⟨ty, imm, ⟨base, disp⟩, sz⟩ := op
  obtain ⟨p1, p2⟩ := pr
  simp only [Option.some.injEq]
  by_cases ha : A = INVALID_ADDR
  · simp [ha]
  · cases B <;> cases p1 <;> rcases Nat.eq_zero_or_pos n with hn | hn <;> cases ty <;>
      simp [ha, hn, Nat.pos_iff_ne_zero.mp] <;> split_ifs <;> simp_all

/-- C2: on the Intel architecture `isFollowable(y)` is true exactly when `y` is a
valid index, the instruction's address is not the sentinel, the instruction is
branching or `isPushRet(y)` holds, there is at least one operand, and the first
operand is an immediate, a memory operand without base register, or a memory operand
whose base is IP, EIP or RIP; so it is false whenever the address is the sentinel. -/
theorem isFollowable_intel (s : CDisasm) (c : Opcodes) (y : Int) (hy : IsCInt y)
    (hlen : s.m_table.length ≤ 2147483647)
    (hdet : s.m_details.length = s.m_table.length)
    (harch : s.m_arch = ARCH_INTEL) :
    (s.isFollowable c y =
        some (decide ((0 ≤ y ∧ y < (s.m_table.length : Int))
          ∧ (s.m_table.getD y.toNat default).address ≠ INVALID_ADDR
          ∧ (s.isBranching c y = true ∨ (s.isPushRet c y).map Prod.fst = some true)
          ∧ 0 < (s.m_details.getD y.toNat default).x86.op_count
          ∧ (((s.m_details.getD y.toNat default).x86.operands.getD 0 default).type = X86_OP_IMM
            ∨ (((s.m_details.getD y.toNat default).x86.operands.getD 0 default).type = X86_OP_MEM
              ∧ ((s.m_details.getD y.toNat default).x86.operands.getD 0 default).mem.base
                  = X86_REG_INVALID)
            ∨ (((s.m_details.getD y.toNat default).x86.operands.getD 0 default).type = X86_OP_MEM
              ∧ (((s.m_details.getD y.toNat default).x86.operands.getD 0 default).mem.base
                    = X86_REG_IP
                ∨ ((s.m_details.getD y.toNat default).x86.operands.getD 0 default).mem.base
                    = X86_REG_EIP
                ∨ ((s.m_details.getD y.toNat default).x86.operands.getD 0 default).mem.base
                    = X86_REG_RIP))))))
      ∧ ((s.m_table.getD y.toNat default).address = INVALID_ADDR →
          s.isFollowable c y = some false) := by
  refine ⟨isFollowable_intel_eq s c y hy hlen hdet harch, fun ha => ?_⟩
  rw [isFollowable_intel_eq s c y hy hlen hdet harch]
  congr 1
  rw [decide_eq_false_iff_not]
  exact fun h => h.2.1 ha

/-- C2, the witness: the push of `push 0x401000; ret` is followable, through the
push-return idiom and its immediate operand. -/
theorem isFollowable_intel_witness :
    pushRetSession.isFollowable sampleOpcodes 0 = some true :=
  (isFollowable_intel pushRetSession sampleOpcodes 0 (by decide) (by decide) (by decide)
    (by decide)).1

/-! ## Filling the table -/

theorem disasmNext_of_init (e : Engine) (s : CDisasm) (hinit : s.is_init = true)
    (hinsn : s.m_insn.isSome = true) :
    s.disasmNext e =
      match cs_disasm_iter e s.handle s.m_buf s.m_bufSize s.m_RVA with
      | none => some ({ s with is_init := false }, 0)
      | some (buf, bufSize, rva, insn, detail) =>
        some ({ s with m_buf := buf, m_bufSize := bufSize, m_RVA := rva,
                       m_insn := some (insn, detail), m_iptr := s.m_iptr + insn.size },
              insn.size) := by
  obtain ⟨r, hr⟩ := Option.isSome_iff_exists.mp hinsn
  unfold CDisasm.disasmNext
  have hg : (!s.is_init && s.m_insn.isSome) = false := by rw [hinit]; rfl
  rw [hg, hr]
  rfl

theorem fillLoop_eq (e : Engine) (fuel : Nat) : ∀ (s : CDisasm) (p : Nat),
    s.is_init = true → s.m_insn.isSome = true → s.m_disasmSize - p ≤ fuel →
    ∃ s1, CDisasm.fillLoop e fuel s p = some s1
      ∧ s1.m_table = s.m_table
          ++ (decodedFrom e s.handle s.m_disasmSize fuel s.m_buf s.m_bufSize s.m_RVA p).map Prod.fst
      ∧ s1.m_details = s.m_details
          ++ (decodedFrom e s.handle s.m_disasmSize fuel s.m_buf s.m_bufSize s.m_RVA p).map Prod.snd
      ∧ s1.m_disasmSize = s.m_disasmSize ∧ s1.m_arch = s.m_arch ∧ s1.m_bitMode = s.m_bitMode
      ∧ s1.startOffset = s.startOffset := by
  induction fuel with
  | zero =>
    intro s p _ _ hf
    refine ⟨s, ?_, ?_, ?_, rfl, rfl, rfl, rfl⟩
    · unfold CDisasm.fillLoop
      rw [if_neg (by omega)]
    · simp [decodedFrom]
    · simp [decodedFrom]
  | succ fuel ih =>
    intro s p hinit hinsn hf
    by_cases hp : p < s.m_disasmSize
    · unfold CDisasm.fillLoop decodedFrom
      simp only [if_pos hp]
      rw [disasmNext_of_init e s hinit hinsn]
      cases hd : cs_disasm_iter e s.handle s.m_buf s.m_bufSize s.m_RVA with
      | none => simp
      | some r =>
        obtain ⟨buf1, bufSize1, rva1, insn, detail⟩ := r
        simp only
        by_cases hz : insn.size = 0
        · simp [hz]
        · simp only [if_neg hz]
          have := ih
            { s with
              m_buf := buf1, m_bufSize := bufSize1, m_RVA := rva1,
              m_insn := some (insn, detail), m_iptr := s.m_iptr + insn.size,
              m_table := s.m_table ++ [insn], m_details := s.m_details ++ [detail] }
            (p + insn.size) hinit rfl (by simp only; omega)
          obtain ⟨s1, h1, h2, h3, h4⟩ := this
          refine ⟨s1, h1, ?_, ?_, h4⟩
          · rw [h2]; simp
          · rw [h3]; simp
    · refine ⟨s, ?_, ?_, ?_, rfl, rfl, rfl, rfl⟩
      · unfold CDisasm.fillLoop
        rw [if_neg hp]
      · simp [decodedFrom, hp]
      · simp [decodedFrom, hp]

/-- More fuel than `bound - processed` does not change the decoded sequence: the
fuel of `decodedDuringCall` never runs out. -/
theorem decodedFrom_fuel (e : Engine) (handle bound : Nat) :
    ∀ (fuel k : Nat) (buf : List Nat) (bufSize rva p : Nat), bound - p ≤ fuel →
    decodedFrom e handle bound (fuel + k) buf bufSize rva p
      = decodedFrom e handle bound fuel buf bufSize rva p := by
  intro fuel
  induction fuel with
  | zero =>
    intro k buf bufSize rva p h
    cases k with
    | zero => rfl
    | succ k =>
      rw [Nat.zero_add]
      unfold decodedFrom
      rw [if_neg (by omega)]
  | succ fuel ih =>
    intro k buf bufSize rva p h
    rw [Nat.add_right_comm]
    unfold decodedFrom
    by_cases hp : p < bound
    · simp only [if_pos hp]
      cases hd : cs_disasm_iter e handle buf bufSize rva with
      | none => rfl
      | some r =>
        obtain ⟨buf1, bufSize1, rva1, insn, detail⟩ := r
        simp only
        by_cases hz : insn.size = 0
        · simp only [if_pos hz]
        · simp only [if_neg hz]
          rw [ih k buf1 bufSize1 rva1 (p + insn.size) (by omega)]
    · simp only [if_neg hp]

theorem decodedFrom_of_yields (e : Engine) (handle bound : Nat) :
    ∀ (insns : List (cs_insn × cs_detail)) (fuel : Nat) (buf : List Nat) (bufSize rva p : Nat),
    yields e handle buf bufSize rva insns = true →
    p + (insns.map fun x => x.1.size).sum ≤ bound → bound - p ≤ fuel →
    decodedFrom e handle bound fuel buf bufSize rva p = insns := by
  intro insns
  induction insns with
  | nil =>
    intro fuel buf bufSize rva p hy _ _
    unfold yields at hy
    rw [Option.isNone_iff_eq_none] at hy
    cases fuel with
    | zero => rfl
    | succ fuel =>
      unfold decodedFrom
      rw [hy]
      split_ifs <;> rfl
  | cons x rest ih =>
    intro fuel buf bufSize rva p hy hsum hfuel
    obtain ⟨insn, detail⟩ := x
    unfold yields at hy
    cases hd : cs_disasm_iter e handle buf bufSize rva with
    | none => simp [hd] at hy
    | some r =>
      obtain ⟨buf1, bufSize1, rva1, insn1, detail1⟩ := r
      simp only [hd, Bool.and_eq_true, decide_eq_true_eq] at hy
      obtain ⟨⟨⟨h1, h2⟩, h3⟩, h4⟩ := hy
      subst h1 h2
      simp only [List.map_cons, List.sum_cons] at hsum
      cases fuel with
      | zero => omega
      | succ fuel =>
        unfold decodedFrom
        rw [if_pos (by omega), hd]
        simp only [if_neg (Nat.pos_iff_ne_zero.mp h3)]
        rw [ih fuel buf1 bufSize1 rva1 (p + insn1.size) h4 (by omega) (by omega)]

theorem fillTable_of_init (e : Engine) (s : CDisasm) (hinit : s.is_init = true)
    (hinsn : s.m_insn.isSome = true) :
    ∃ s1, s.fillTable e = some (s1, decide (s1.m_table.length ≠ 0))
      ∧ s1.m_table = (decodedDuringCall e s).map Prod.fst
      ∧ s1.m_details = (decodedDuringCall e s).map Prod.snd := by
  obtain ⟨s1, h1, h2, h3, _⟩ :=
    fillLoop_eq e s.m_disasmSize s.clearTable.1 0 hinit hinsn (Nat.sub_le _ _)
  refine ⟨s1, ?_, ?_, ?_⟩
  · unfold CDisasm.fillTable
    rw [hinit, h1]
    rfl
  · rw [h2]
    simp [CDisasm.clearTable, decodedDuringCall]
  · rw [h3]
    simp [CDisasm.clearTable, decodedDuringCall]

/-- C6 (as amended): a call of `fillTable()` on a session that is initialized at
entry leaves, whatever the table held before, exactly the instructions decoded
during that call, details alongside; the table is empty if and only if the call
decoded no instruction, and the call returns false exactly then.  On a session that
is not initialized the call returns false and leaves the session as it was. -/
theorem fillTable_replaces (e : Engine) (s : CDisasm)
    (hinsn : s.is_init = true → s.m_insn.isSome = true) :
    (s.is_init = true →
      ∃ s1 b, s.fillTable e = some (s1, b)
        ∧ s1.m_table = (decodedDuringCall e s).map Prod.fst
        ∧ s1.m_details = (decodedDuringCall e s).map Prod.snd
        ∧ (s1.m_table = [] ↔ decodedDuringCall e s = [])
        ∧ (b = false ↔ decodedDuringCall e s = []))
    ∧ (s.is_init = false → s.fillTable e = some (s, false)) := by
  constructor
  · intro hinit
    obtain ⟨s1, h1, h2, h3⟩ := fillTable_of_init e s hinit (hinsn hinit)
    refine ⟨s1, _, h1, h2, h3, ?_, ?_⟩
    · rw [h2]
      exact List.map_eq_nil_iff
    · rw [h2]
      simp
  · intro hinit
    unfold CDisasm.fillTable
    rw [hinit]
    rfl

/-- C6, the witness: on the fresh session over `push 0x401000; ret` the pass leaves
the two decoded instructions and returns true. -/
theorem fillTable_replaces_witness :
    ∃ s1 b, pushRetFresh.fillTable sampleEngine = some (s1, b)
      ∧ s1.m_table = (decodedDuringCall sampleEngine pushRetFresh).map Prod.fst
      ∧ s1.m_details = (decodedDuringCall sampleEngine pushRetFresh).map Prod.snd
      ∧ (s1.m_table = [] ↔ decodedDuringCall sampleEngine pushRetFresh = [])
      ∧ (b = false ↔ decodedDuringCall sampleEngine pushRetFresh = []) :=
  (fillTable_replaces sampleEngine pushRetFresh (fun _ => by decide)).1 (by decide)

/-- C6, the counterexample: the first pass over a one-byte buffer with bound 5 ends
in a decode failure and leaves `staleSession`; the next call of `fillTable`, with any
engine, decodes nothing and returns false, yet the table still holds the instruction
of the first pass. -/
theorem fillTable_replaces_counterexample :
    (nopSession 5).fillTable sampleEngine = some (staleSession, true)
      ∧ (∀ e : Engine, staleSession.fillTable e = some (staleSession, false))
      ∧ staleSession.m_table = [⟨sampleX86.X86_INS_NOP, 4096, 1⟩]
      ∧ staleSession.m_table ≠ [] :=
  ⟨by decide, fun _ => rfl, rfl, by decide⟩

/-- C7 (as amended): on an initialized session whose engine yields from the cursor,
in order, `N ≥ 1` instructions of positive size and then fails, when the sum of the
sizes is at most `m_disasmSize`, `fillTable()` returns true and leaves a table of
exactly these `N` entries in decode order, details alongside. -/
theorem fillTable_whole_buffer (e : Engine) (s : CDisasm)
    (insns : List (cs_insn × cs_detail))
    (hinit : s.is_init = true) (hinsn : s.m_insn.isSome = true)
    (hy : yields e s.handle s.m_buf s.m_bufSize s.m_RVA insns = true)
    (hne : insns ≠ [])
    (hsum : (insns.map fun x => x.1.size).sum ≤ s.m_disasmSize) :
    ∃ s1, s.fillTable e = some (s1, true)
      ∧ s1.m_table = insns.map Prod.fst
      ∧ s1.m_details = insns.map Prod.snd
      ∧ s1.m_table.length = insns.length := by
  obtain ⟨s1, h1, h2, h3⟩ := fillTable_of_init e s hinit hinsn
  have hd : decodedDuringCall e s = insns :=
    decodedFrom_of_yields e s.handle s.m_disasmSize insns s.m_disasmSize s.m_buf s.m_bufSize
      s.m_RVA 0 hy (by omega) (by omega)
  rw [hd] at h2 h3
  have hlen : s1.m_table.length = insns.length := by rw [h2, List.length_map]
  have hpos : s1.m_table.length ≠ 0 := by
    rw [hlen]
    exact fun h => hne (List.length_eq_zero.mp h)
  refine ⟨s1, ?_, h2, h3, hlen⟩
  rw [h1]
  simp [hpos]

/-- C7, the witness: the buffer of `push 0x401000; ret` with bound 6 gives a table of
these two instructions. -/
theorem fillTable_whole_buffer_witness :
    ∃ s1, pushRetFresh.fillTable sampleEngine = some (s1, true)
      ∧ s1.m_table = [⟨sampleX86.X86_INS_PUSH, 4096, 5⟩, ⟨sampleX86.X86_INS_RET, 4101, 1⟩]
      ∧ s1.m_details = [x86Detail [⟨X86_OP_IMM, 4198400, ⟨0, 0⟩, 4⟩], x86Detail []]
      ∧ s1.m_table.length = 2 :=
  fillTable_whole_buffer sampleEngine pushRetFresh
    [(⟨sampleX86.X86_INS_PUSH, 4096, 5⟩, x86Detail [⟨X86_OP_IMM, 4198400, ⟨0, 0⟩, 4⟩]),
     (⟨sampleX86.X86_INS_RET, 4101, 1⟩, x86Detail [])]
    (by decide) (by decide) (by decide) (by decide) (by decide)

/-- C7, the counterexample: the first pass over a one-byte buffer with bound 1 stops
at the bound and leaves `exhaustedSession`, initialized, its buffer exhausted.  There
the engine yields `N = 0` instructions and then fails, the sum of the sizes, 0, is at
most the bound, and `fillTable()` returns false. -/
theorem fillTable_whole_buffer_counterexample :
    (nopSession 1).fillTable sampleEngine = some (exhaustedSession, true)
      ∧ exhaustedSession.is_init = true
      ∧ exhaustedSession.m_bufSize = 0
      ∧ yields sampleEngine exhaustedSession.handle exhaustedSession.m_buf
          exhaustedSession.m_bufSize exhaustedSession.m_RVA [] = true
      ∧ (([] : List (cs_insn × cs_detail)).map fun x => x.1.size).sum
          ≤ exhaustedSession.m_disasmSize
      ∧ (exhaustedSession.fillTable sampleEngine).map Prod.snd = some false
      ∧ (exhaustedSession.fillTable sampleEngine).map (fun r => r.1.m_table) = some [] := by
  decide

/-! ## The Intel classifier -/

/-- C8 (as amended): every opcode id in the range from `X86_INS_JAE` to `X86_INS_JS`
other than the invalid opcode, JMP and LJMP classifies as conditional jump; JMP and
LJMP classify as jump also inside that range; and no opcode id outside both that
range and the range from `X86_INS_MOV` to `X86_INS_MOVZX` classifies as conditional
jump or as move. -/
theorem fetchMnemType_Intel_ranges (c : x86_insn) (insn : cs_insn) :
    (c.X86_INS_JAE ≤ insn.id ∧ insn.id ≤ c.X86_INS_JS →
      insn.id ≠ c.X86_INS_INVALID → insn.id ≠ c.X86_INS_JMP → insn.id ≠ c.X86_INS_LJMP →
      fetchMnemType_Intel c insn = MT_COND_JUMP)
    ∧ (insn.id ≠ c.X86_INS_INVALID → insn.id = c.X86_INS_JMP ∨ insn.id = c.X86_INS_LJMP →
      fetchMnemType_Intel c insn = MT_JUMP)
    ∧ (¬ (c.X86_INS_JAE ≤ insn.id ∧ insn.id ≤ c.X86_INS_JS) →
      ¬ (c.X86_INS_MOV ≤ insn.id ∧ insn.id ≤ c.X86_INS_MOVZX) →
      fetchMnemType_Intel c insn ≠ MT_COND_JUMP ∧ fetchMnemType_Intel c insn ≠ MT_MOV) := by
  refine ⟨?_, ?_, ?_⟩
  · intro h1 h2 h3 h4
    unfold fetchMnemType_Intel
    simp only [if_neg h2, h3, h4, or_self, if_false, if_pos h1]
  · intro h2 h3
    unfold fetchMnemType_Intel
    simp only [if_neg h2, if_pos h3]
  · intro h1 h2
    unfold fetchMnemType_Intel
    simp only [if_neg h1, if_neg h2]
    repeat' split
    all_goals exact ⟨by decide, by decide⟩

/-- C8, the witness: in the sample numbering JAE itself classifies as conditional
jump. -/
theorem fetchMnemType_Intel_ranges_witness :
    fetchMnemType_Intel sampleX86 ⟨sampleX86.X86_INS_JAE, 4096, 2⟩ = MT_COND_JUMP :=
  (fetchMnemType_Intel_ranges sampleX86 ⟨sampleX86.X86_INS_JAE, 4096, 2⟩).1
    (by decide) (by decide) (by decide) (by decide)

/-- C8, the counterexample: in a numbering that keeps capstone's order, JMP lies
in the range from JAE to JS and classifies as jump, not as conditional jump. -/
theorem fetchMnemType_Intel_ranges_counterexample :
    sampleX86.X86_INS_JAE ≤ sampleX86.X86_INS_JMP
      ∧ sampleX86.X86_INS_JMP ≤ sampleX86.X86_INS_JS
      ∧ fetchMnemType_Intel sampleX86 ⟨sampleX86.X86_INS_JMP, 4096, 5⟩ = MT_JUMP
      ∧ fetchMnemType_Intel sampleX86 ⟨sampleX86.X86_INS_JMP, 4096, 5⟩ ≠ MT_COND_JUMP := by
  decide

/-- C9: for an opcode id that is not the invalid opcode, not JMP or LJMP and outside
both ranges, the result is loop for the loops, call for the calls, return for the
returns, nop for NOP, push for the pushes, pop for the pops, breakpoint trap for
INT3, software interrupt for INT, and other for every remaining opcode; the invalid
opcode classifies as invalid and JMP and LJMP as jump. -/
theorem fetchMnemType_Intel_table (c : x86_insn) (hc : c.Distinct) (insn : cs_insn) :
    (insn.id = c.X86_INS_INVALID → fetchMnemType_Intel c insn = MT_INVALID)
    ∧ (insn.id = c.X86_INS_JMP ∨ insn.id = c.X86_INS_LJMP →
        fetchMnemType_Intel c insn = MT_JUMP)
    ∧ (insn.id ≠ c.X86_INS_INVALID → insn.id ≠ c.X86_INS_JMP → insn.id ≠ c.X86_INS_LJMP →
        ¬ (c.X86_INS_JAE ≤ insn.id ∧ insn.id ≤ c.X86_INS_JS) →
        ¬ (c.X86_INS_MOV ≤ insn.id ∧ insn.id ≤ c.X86_INS_MOVZX) →
        (insn.id ∈ [c.X86_INS_LOOP, c.X86_INS_LOOPE, c.X86_INS_LOOPNE] →
          fetchMnemType_Intel c insn = MT_LOOP)
        ∧ (insn.id ∈ [c.X86_INS_CALL, c.X86_INS_LCALL] → fetchMnemType_Intel c insn = MT_CALL)
        ∧ (insn.id ∈ [c.X86_INS_RET, c.X86_INS_RETF, c.X86_INS_RETFQ] →
          fetchMnemType_Intel c insn = MT_RET)
        ∧ (insn.id = c.X86_INS_NOP → fetchMnemType_Intel c insn = MT_NOP)
        ∧ (insn.id ∈ [c.X86_INS_PUSH, c.X86_INS_PUSHAW, c.X86_INS_PUSHAL, c.X86_INS_PUSHF,
              c.X86_INS_PUSHFD, c.X86_INS_PUSHFQ] → fetchMnemType_Intel c insn = MT_PUSH)
        ∧ (insn.id ∈ [c.X86_INS_POP, c.X86_INS_POPAW, c.X86_INS_POPAL, c.X86_INS_POPCNT,
              c.X86_INS_POPF, c.X86_INS_POPFD, c.X86_INS_POPFQ] →
          fetchMnemType_Intel c insn = MT_POP)
        ∧ (insn.id = c.X86_INS_INT3 → fetchMnemType_Intel c insn = MT_INT3)
        ∧ (insn.id = c.X86_INS_INT → fetchMnemType_Intel c insn = MT_INTX)
        ∧ (insn.id ∉ c.caseLabels → fetchMnemType_Intel c insn = MT_OTHER)) := by
  have hcr := List.nodup_reverse.mpr hc
  unfold x86_insn.Distinct x86_insn.caseLabels at hcr
  simp only [List.reverse_cons, List.reverse_nil, List.nil_append, List.cons_append,
    List.nodup_cons, List.mem_cons, List.mem_singleton, not_or, List.not_mem_nil,
    not_false_eq_true, List.nodup_nil, and_true] at hcr
  refine ⟨?_, ?_, ?_⟩
  · intro h
    unfold fetchMnemType_Intel
    simp only [if_pos h]
  · intro h
    have h0 : insn.id ≠ c.X86_INS_INVALID := by
      rcases h with h | h <;> rw [h] <;> simp only [ne_eq, hcr, not_false_eq_true]
    unfold fetchMnemType_Intel
    simp only [if_neg h0, if_pos h]
  · intro h0 h1 h2 h3 h4
    have hj : ¬ (insn.id = c.X86_INS_JMP ∨ insn.id = c.X86_INS_LJMP) := by
      rintro (h | h)
      · exact h1 h
      · exact h2 h
    unfold fetchMnemType_Intel x86_insn.caseLabels
    simp only [if_neg h0, if_neg hj, if_neg h3, if_neg h4, List.mem_cons, List.mem_singleton,
      List.not_mem_nil, or_false]
    refine ⟨?_, ?_, ?_, ?_, ?_, ?_, ?_, ?_, ?_⟩
    · intro h; simp only [if_pos h]
    · rintro (h | h) <;> simp only [h, hcr, or_false, false_or, or_true, true_or, if_true, if_false, or_self]
    · rintro (h | h | h) <;> simp only [h, hcr, or_false, false_or, or_true, true_or, if_true, if_false, or_self]
    · rintro h ; simp only [h, hcr, or_false, false_or, or_true, true_or, if_true, if_false, or_self]
    · rintro (h | h | h | h | h | h) <;> simp only [h, hcr, or_false, false_or, or_true, true_or, if_true, if_false, or_self]
    · rintro (h | h | h | h | h | h | h) <;> simp only [h, hcr, or_false, false_or, or_true, true_or, if_true, if_false, or_self]
    · rintro h ; simp only [h, hcr, or_false, false_or, or_true, true_or, if_true, if_false, or_self]
    · rintro h ; simp only [h, hcr, or_false, false_or, or_true, true_or, if_true, if_false, or_self]
    · intro h
      simp only [not_or] at h
      simp only [h, or_self, if_false]

/-- C9, the witness: in the sample numbering PUSHFD, which lies outside both ranges,
classifies as push. -/
theorem fetchMnemType_Intel_table_witness :
    fetchMnemType_Intel sampleX86 ⟨sampleX86.X86_INS_PUSHFD, 4096, 1⟩ = MT_PUSH := by
  have h := fetchMnemType_Intel_table sampleX86 (by decide) ⟨sampleX86.X86_INS_PUSHFD, 4096, 1⟩
  exact (h.2.2 (by decide) (by decide) (by decide) (by decide) (by decide)).2.2.2.2.1
    (by decide)

/-! ## The ARM64 classifier -/

theorem arm64GroupScan_call_first (c : arm64_insn) (cMnem : Nat) (post : List Nat) :
    ∀ pre : List Nat,
    (∀ g ∈ pre, g ≠ ARM64_GRP_RET ∧ g ≠ ARM64_GRP_INT ∧ g ≠ ARM64_GRP_JUMP
      ∧ g ≠ ARM64_GRP_BRANCH_RELATIVE) →
    arm64GroupScan c cMnem (pre ++ ARM64_GRP_CALL :: post) = MT_CALL := by
  intro pre
  induction pre with
  | nil =>
    intro _
    simp [arm64GroupScan]
  | cons g rest ih =>
    intro h
    have hg := h g (List.mem_cons_self _ _)
    have hrest := ih (fun x hx => h x (List.mem_cons_of_mem _ hx))
    rw [List.cons_append]
    unfold arm64GroupScan
    rw [hrest]
    split_ifs with a1 a2 a3 a4 <;> first | rfl | exact absurd a2 hg.1 | exact absurd a3 hg.2.1 | skip
    all_goals
      rcases a4 with a4 | a4
      · exact absurd a4 hg.2.2.1
      · exact absurd a4 hg.2.2.2

theorem arm64GroupScan_other_iff (c : arm64_insn) (cMnem : Nat) (gs : List Nat) :
    arm64GroupScan c cMnem gs = MT_OTHER ↔
      ∀ g ∈ gs, g ≠ ARM64_GRP_CALL ∧ g ≠ ARM64_GRP_RET ∧ g ≠ ARM64_GRP_INT
        ∧ g ≠ ARM64_GRP_JUMP ∧ g ≠ ARM64_GRP_BRANCH_RELATIVE := by
  induction gs with
  | nil => simp [arm64GroupScan]
  | cons g rest ih =>
    unfold arm64GroupScan
    rw [List.forall_mem_cons, ← ih]
    split_ifs with a1 a2 a3 a4 a5
    · exact ⟨fun h => absurd h (by decide), fun h => absurd a1 h.1.1⟩
    · exact ⟨fun h => absurd h (by decide), fun h => absurd a2 h.1.2.1⟩
    · exact ⟨fun h => absurd h (by decide), fun h => absurd a3 h.1.2.2.1⟩
    · refine ⟨fun h => absurd h (by decide), fun h => ?_⟩
      rcases a4 with a4 | a4
      · exact absurd a4 h.1.2.2.2.1
      · exact absurd a4 h.1.2.2.2.2
    · refine ⟨fun h => absurd h (by decide), fun h => ?_⟩
      rcases a4 with a4 | a4
      · exact absurd a4 h.1.2.2.2.1
      · exact absurd a4 h.1.2.2.2.2
    · exact ⟨fun h => ⟨⟨a1, a2, a3, fun x => a4 (Or.inl x), fun x => a4 (Or.inr x)⟩, h⟩,
        fun h => h.2⟩

/-- C10 (as amended): for an instruction whose opcode is none of UDF, INVALID and NOP:
if its group list contains the call group and no return, interrupt, jump or
relative-branch group stands before the first call group, it classifies as call,
whatever follows; and it classifies as other if and only if the list contains none
of the call, return, interrupt, jump and relative-branch groups. -/
theorem fetchMnemType_Arm64_groups (c : arm64_insn) (insn : cs_insn) (d : cs_detail)
    (h1 : insn.id ≠ c.ARM64_INS_UDF) (h2 : insn.id ≠ c.ARM64_INS_INVALID)
    (h3 : insn.id ≠ c.ARM64_INS_NOP) :
    (∀ pre post : List Nat, d.groups = pre ++ ARM64_GRP_CALL :: post →
      (∀ g ∈ pre, g ≠ ARM64_GRP_RET ∧ g ≠ ARM64_GRP_INT ∧ g ≠ ARM64_GRP_JUMP
        ∧ g ≠ ARM64_GRP_BRANCH_RELATIVE) →
      fetchMnemType_Arm64 c insn d = MT_CALL)
    ∧ (fetchMnemType_Arm64 c insn d = MT_OTHER ↔
      ∀ g ∈ d.groups, g ≠ ARM64_GRP_CALL ∧ g ≠ ARM64_GRP_RET ∧ g ≠ ARM64_GRP_INT
        ∧ g ≠ ARM64_GRP_JUMP ∧ g ≠ ARM64_GRP_BRANCH_RELATIVE) := by
  unfold fetchMnemType_Arm64
  simp only [if_neg h1, if_neg h2, if_neg h3]
  refine ⟨fun pre post hd hpre => ?_, arm64GroupScan_other_iff _ _ _⟩
  rw [hd]
  exact arm64GroupScan_call_first _ _ _ _ hpre

/-- C10, the witness: groups listed as call first and jump second classify as call. -/
theorem fetchMnemType_Arm64_groups_witness :
    fetchMnemType_Arm64 sampleArm64 ⟨77, 4096, 4⟩
      ⟨[ARM64_GRP_CALL, ARM64_GRP_JUMP], ⟨0, []⟩, ⟨0, []⟩⟩ = MT_CALL :=
  (fetchMnemType_Arm64_groups sampleArm64 ⟨77, 4096, 4⟩
    ⟨[ARM64_GRP_CALL, ARM64_GRP_JUMP], ⟨0, []⟩, ⟨0, []⟩⟩ (by decide) (by decide)
    (by decide)).1 [] [ARM64_GRP_JUMP] rfl (by simp)

/-- C10, the counterexample: an instruction whose opcode is none of UDF, INVALID and
NOP and whose group list is jump, call contains the call group, yet classifies as
jump. -/
theorem fetchMnemType_Arm64_groups_counterexample :
    (77 ≠ sampleArm64.ARM64_INS_UDF ∧ 77 ≠ sampleArm64.ARM64_INS_INVALID
        ∧ 77 ≠ sampleArm64.ARM64_INS_NOP)
      ∧ ARM64_GRP_CALL ∈ jumpCallDetail.groups
      ∧ fetchMnemType_Arm64 sampleArm64 ⟨77, 4096, 4⟩ jumpCallDetail = MT_JUMP
      ∧ fetchMnemType_Arm64 sampleArm64 ⟨77, 4096, 4⟩ jumpCallDetail ≠ MT_CALL := by
  decide

/-! ## Single-step decode on an uninitialized session -/

/-- After a failed decode step the session is uninitialized with its result record
still allocated, and every later call returns 0 and changes nothing. -/
theorem disasmNext_after_failure (e : Engine) (s : CDisasm) (hinit : s.is_init = true)
    (hinsn : s.m_insn.isSome = true)
    (hfail : cs_disasm_iter e s.handle s.m_buf s.m_bufSize s.m_RVA = none) :
    s.disasmNext e = some ({ s with is_init := false }, 0)
      ∧ ∀ e2 : Engine, ({ s with is_init := false } : CDisasm).disasmNext e2
          = some ({ s with is_init := false }, 0) := by
  constructor
  · rw [disasmNext_of_init e s hinit hinsn, hfail]
  · intro e2
    unfold CDisasm.disasmNext
    simp only [hinsn, Bool.not_false, Bool.and_self, if_true]

/-- C11: on a session with `is_init = false`, `disasmNext()` returns 0 and leaves the
session as it was, whatever the engine, when the result record is allocated, as after
a failed decode step; when the result record is the null pointer, as on a session
that was never opened, the guard does not fire and the engine is invoked with the
null record. -/
theorem disasmNext_uninitialized (e : Engine) (s : CDisasm) (h : s.is_init = false) :
    (s.m_insn.isSome = true → s.disasmNext e = some (s, 0))
      ∧ (s.m_insn = none → s.disasmNext e = none) := by
  constructor
  · intro hm
    unfold CDisasm.disasmNext
    rw [h, hm]
    rfl
  · intro hm
    unfold CDisasm.disasmNext
    rw [h, hm]
    rfl

/-- C11, the witness: after `init` for ARM in 16-bit mode has failed, the session is
uninitialized with a null result record, and `disasmNext()` invokes the engine. -/
theorem disasmNext_uninitialized_witness :
    neverOpenedSession.is_init = false ∧ neverOpenedSession.m_insn = none
      ∧ neverOpenedSession.disasmNext sampleEngine = none :=
  ⟨by decide, by decide,
    (disasmNext_uninitialized sampleEngine neverOpenedSession (by decide)).2 (by decide)⟩

/-! ## Raw offsets -/

/-- C12: for a valid index, `getRawAt` is the address minus `startOffset` as unsigned
64-bit values (the plain difference when nothing wraps) when `startOffset` is not the
sentinel, and the address itself when it is; for an index that is not valid it is the
sentinel. -/
theorem getRawAt_eq (s : CDisasm) (i : Int) (hi : IsCInt i)
    (hlen : s.m_table.length ≤ 2147483647) :
    ((0 ≤ i ∧ i < (s.m_table.length : Int)) →
        (s.startOffset ≠ INVALID_ADDR →
          s.getRawAt i = toSizeT (((s.m_table.getD i.toNat default).address : Int)
            - (s.startOffset : Int)))
        ∧ (s.startOffset ≠ INVALID_ADDR →
          s.startOffset ≤ (s.m_table.getD i.toNat default).address →
          (s.m_table.getD i.toNat default).address < 18446744073709551616 →
          s.getRawAt i = (s.m_table.getD i.toNat default).address - s.startOffset)
        ∧ (s.startOffset = INVALID_ADDR →
          s.getRawAt i = (s.m_table.getD i.toNat default).address))
      ∧ (¬ (0 ≤ i ∧ i < (s.m_table.length : Int)) → s.getRawAt i = INVALID_ADDR) := by
  obtain ⟨hi1, hi2⟩ := hi
  constructor
  · rintro ⟨h0, h1⟩
    have hti : toSizeT i = i.toNat := toSizeT_of_nonneg i h0 hi2
    have hin : ¬ s.m_table.length ≤ i.toNat := by omega
    unfold CDisasm.getRawAt
    simp only [hti, if_neg hin]
    refine ⟨fun hs => by rw [if_neg hs], fun hs hle hlt => ?_, fun hs => by rw [if_pos hs]⟩
    rw [if_neg hs]
    unfold toSizeT
    omega
  · intro h
    unfold CDisasm.getRawAt
    by_cases hneg : i < 0
    · have := toSizeT_of_neg i hi1 hneg
      rw [if_pos (by omega)]
    · have hti : toSizeT i = i.toNat := toSizeT_of_nonneg i (by omega) hi2
      rw [hti, if_pos (by omega)]

/-- C12, the witness: the `ret` at address 4101 of a session with start offset 4096
has raw offset 5. -/
theorem getRawAt_eq_witness :
    pushRetSession.getRawAt 1 = 5 :=
  ((getRawAt_eq pushRetSession 1 (by decide) (by decide)).1 (by decide)).2.1
    (by decide) (by decide) (by decide)

/-! ## The push-return scenario -/

theorem fetchMnemType_Intel_push_ret (c : x86_insn) (hc : c.Distinct)
    (hp1 : ¬ (c.X86_INS_JAE ≤ c.X86_INS_PUSH ∧ c.X86_INS_PUSH ≤ c.X86_INS_JS))
    (hp2 : ¬ (c.X86_INS_MOV ≤ c.X86_INS_PUSH ∧ c.X86_INS_PUSH ≤ c.X86_INS_MOVZX))
    (hr1 : ¬ (c.X86_INS_JAE ≤ c.X86_INS_RET ∧ c.X86_INS_RET ≤ c.X86_INS_JS))
    (hr2 : ¬ (c.X86_INS_MOV ≤ c.X86_INS_RET ∧ c.X86_INS_RET ≤ c.X86_INS_MOVZX))
    (p r : cs_insn) (hp : p.id = c.X86_INS_PUSH) (hr : r.id = c.X86_INS_RET) :
    fetchMnemType_Intel c p = MT_PUSH ∧ fetchMnemType_Intel c r = MT_RET := by
  have hcr := List.nodup_reverse.mpr hc
  unfold x86_insn.Distinct x86_insn.caseLabels at hcr
  simp only [List.reverse_cons, List.reverse_nil, List.nil_append, List.cons_append,
    List.nodup_cons, List.mem_cons, List.mem_singleton, not_or, List.not_mem_nil,
    not_false_eq_true, List.nodup_nil, and_true] at hcr
  constructor
  · unfold fetchMnemType_Intel
    simp only [hp, hcr, hp1, hp2, or_false, false_or, or_true, true_or, if_true, if_false,
      or_self]
  · unfold fetchMnemType_Intel
    simp only [hr, hcr, hr1, hr2, or_false, false_or, or_true, true_or, if_true, if_false,
      or_self]

/-- C13: in a two-entry Intel table whose entry 0 is a PUSH with a single immediate
operand at a valid address and whose entry 1 is a RET (in any bit mode, so in 32-bit
mode, and whatever the address of the RET), entry 0 classifies as push, entry 1 as
return, `isPushRet(0)` is true with return index 1, `isFollowable(0)` is true and
`isFollowable(1)` is false; the opcode numbering is one with pairwise different
opcodes that has PUSH and RET outside the two ranges. -/
theorem pushRet_scenario (s : CDisasm) (c : Opcodes) (p r : cs_insn) (d0 d1 : cs_detail)
    (hs : s.m_table = [p, r]) (hd : s.m_details = [d0, d1])
    (harch : s.m_arch = ARCH_INTEL)
    (hp : p.id = c.x86.X86_INS_PUSH) (hr : r.id = c.x86.X86_INS_RET)
    (hcnt : d0.x86.op_count = 1)
    (hop : (d0.x86.operands.getD 0 default).type = X86_OP_IMM)
    (ha0 : p.address ≠ INVALID_ADDR)
    (hc : c.x86.Distinct)
    (hp1 : ¬ (c.x86.X86_INS_JAE ≤ c.x86.X86_INS_PUSH ∧ c.x86.X86_INS_PUSH ≤ c.x86.X86_INS_JS))
    (hp2 : ¬ (c.x86.X86_INS_MOV ≤ c.x86.X86_INS_PUSH
      ∧ c.x86.X86_INS_PUSH ≤ c.x86.X86_INS_MOVZX))
    (hr1 : ¬ (c.x86.X86_INS_JAE ≤ c.x86.X86_INS_RET ∧ c.x86.X86_INS_RET ≤ c.x86.X86_INS_JS))
    (hr2 : ¬ (c.x86.X86_INS_MOV ≤ c.x86.X86_INS_RET
      ∧ c.x86.X86_INS_RET ≤ c.x86.X86_INS_MOVZX)) :
    s.getMnemType c 0 = MT_PUSH ∧ s.getMnemType c 1 = MT_RET
      ∧ s.isPushRet c 0 = some (true, some 1)
      ∧ s.isFollowable c 0 = some true ∧ s.isFollowable c 1 = some false := by
  obtain ⟨hfp, hfr⟩ := fetchMnemType_Intel_push_ret c.x86 hc hp1 hp2 hr1 hr2 p r hp hr
  have hlen : s.m_table.length = 2 := by rw [hs]; rfl
  have hdet : s.m_details.length = s.m_table.length := by rw [hs, hd]; rfl
  have ht0 : toSizeT 0 = 0 := by decide
  have ht1 : toSizeT 1 = 1 := by decide
  have hg0 : s.getMnemType c 0 = MT_PUSH := by
    unfold CDisasm.getMnemType
    rw [ht0, fetchMnemType_intel s c _ _ harch, hs]
    exact hfp
  have hg1 : s.getMnemType c 1 = MT_RET := by
    unfold CDisasm.getMnemType
    rw [ht1, fetchMnemType_intel s c _ _ harch, hs]
    exact hfr
  have hpr0 : s.isPushRet c 0 = some (true, some 1) := by
    rw [isPushRet_eq s c 0 (by decide) (by omega) hdet]
    rw [if_pos ⟨⟨by omega, by omega⟩, hg0, hg1⟩]
    rfl
  have hpr1 : s.isPushRet c 1 = some (false, none) := by
    rw [isPushRet_eq s c 1 (by decide) (by omega) hdet]
    rw [if_neg (fun h => by rw [hg1] at h; exact absurd h.2.1 (by decide))]
  have hb1 : s.isBranching c 1 = false := by
    unfold CDisasm.isBranching
    simp only [hg1]
    decide
  refine ⟨hg0, hg1, hpr0, ?_, ?_⟩
  · rw [isFollowable_intel_eq s c 0 (by decide) (by omega) hdet harch]
    congr 1
    rw [decide_eq_true_eq]
    refine ⟨⟨by omega, by omega⟩, ?_, Or.inr (by rw [hpr0]; rfl), ?_, Or.inl ?_⟩
    · simpa [hs] using ha0
    · simp [hd, hcnt]
    · simpa [hd] using hop
  · rw [isFollowable_intel_eq s c 1 (by decide) (by omega) hdet harch]
    congr 1
    rw [decide_eq_false_iff_not]
    rintro ⟨_, _, h, _⟩
    rcases h with h | h
    · rw [hb1] at h
      exact absurd h (by decide)
    · rw [hpr1] at h
      exact absurd h (by decide)

/-- C13, the witness: the session over `push 0x401000; ret` in 32-bit mode. -/
theorem pushRet_scenario_witness :
    pushRetSession.getMnemType sampleOpcodes 0 = MT_PUSH
      ∧ pushRetSession.getMnemType sampleOpcodes 1 = MT_RET
      ∧ pushRetSession.isPushRet sampleOpcodes 0 = some (true, some 1)
      ∧ pushRetSession.isFollowable sampleOpcodes 0 = some true
      ∧ pushRetSession.isFollowable sampleOpcodes 1 = some false :=
  pushRet_scenario pushRetSession sampleOpcodes ⟨sampleX86.X86_INS_PUSH, 4096, 5⟩
    ⟨sampleX86.X86_INS_RET, 4101, 1⟩ (x86Detail [⟨X86_OP_IMM, 4198400, ⟨0, 0⟩, 4⟩])
    (x86Detail []) rfl rfl rfl rfl rfl rfl (by decide) (by decide) (by decide) (by decide)
    (by decide) (by decide) (by decide)

/-! ## The address-operand heuristic -/

/-- C14: `isAddrOperand(i)` is true exactly when `i` is a valid index and the
instruction classifies as push or move, or some operand below the operand count is an
immediate of declared size above 8, or some operand below the operand count is a
memory operand whose base is IP, EIP or RIP; it is false for an index that is not
valid.  This holds on the Intel architecture and on every other one, since the
function reads the x86 view of the detail whatever the architecture. -/
theorem isAddrOperand_intel (s : CDisasm) (c : Opcodes) (i : Int) (hi : IsCInt i)
    (hlen : s.m_table.length ≤ 2147483647)
    (hdet : s.m_details.length = s.m_table.length) :
    ∃ b, s.isAddrOperand c i = some b
      ∧ (b = true ↔
          (0 ≤ i ∧ i < (s.m_table.length : Int))
          ∧ (s.getMnemType c i = MT_PUSH ∨ s.getMnemType c i = MT_MOV
            ∨ ∃ k, k < (s.m_details.getD i.toNat default).x86.op_count
                ∧ ((((s.m_details.getD i.toNat default).x86.operands.getD k default).type
                      = X86_OP_IMM
                    ∧ 8 < ((s.m_details.getD i.toNat default).x86.operands.getD k default).size)
                  ∨ (((s.m_details.getD i.toNat default).x86.operands.getD k default).type
                      = X86_OP_MEM
                    ∧ (((s.m_details.getD i.toNat default).x86.operands.getD k default).mem.base
                          = X86_REG_IP
                      ∨ ((s.m_details.getD i.toNat default).x86.operands.getD k default).mem.base
                          = X86_REG_EIP
                      ∨ ((s.m_details.getD i.toNat default).x86.operands.getD k default).mem.base
                          = X86_REG_RIP))))) := by
  obtain ⟨hi1, hi2⟩ := hi
  by_cases hneg : i < 0
  · have h1 := toSizeT_of_neg i hi1 hneg
    refine ⟨false, ?_, ?_⟩
    · unfold CDisasm.isAddrOperand
      rw [if_pos (by omega)]
    · constructor
      · intro h
        exact absurd h (by simp)
      · rintro ⟨⟨h, _⟩, _⟩
        omega
  have hti : toSizeT i = i.toNat := toSizeT_of_nonneg i (by omega) hi2
  by_cases hbig : (s.m_table.length : Int) ≤ i
  · refine ⟨false, ?_, ?_⟩
    · unfold CDisasm.isAddrOperand
      rw [if_pos (by omega)]
    · constructor
      · intro h
        exact absurd h (by simp)
      · rintro ⟨⟨_, h⟩, _⟩
        omega
  have hin : i.toNat < s.m_table.length := by omega
  have hin2 : i.toNat < s.m_details.length := by omega
  have hrange : 0 ≤ i ∧ i < (s.m_table.length : Int) := ⟨by omega, by omega⟩
  have hd : s.m_details.getD i.toNat default = s.m_details[i.toNat] := by
    simp [List.getD_eq_getElem?_getD, List.getElem?_eq_getElem hin2]
  rw [hd]
  unfold CDisasm.isAddrOperand
  simp only [hti, if_neg (Nat.not_le.mpr hin), List.getElem?_eq_getElem hin2,
    Option.bind_eq_bind, Option.some_bind]
  by_cases hm : s.getMnemType c i = MT_PUSH ∨ s.getMnemType c i = MT_MOV
  · refine ⟨true, by rw [if_pos hm], ?_⟩
    simp only [true_iff]
    refine ⟨hrange, ?_⟩
    rcases hm with hm | hm
    · exact Or.inl hm
    · exact Or.inr (Or.inl hm)
  · refine ⟨_, by rw [if_neg hm], ?_⟩
    rw [List.any_eq_true]
    constructor
    · rintro ⟨k, hk, hp⟩
      rw [List.mem_range] at hk
      rw [decide_eq_true_eq] at hp
      exact ⟨hrange, Or.inr (Or.inr ⟨k, hk, hp⟩)⟩
    · rintro ⟨_, h | h | ⟨k, hk, hp⟩⟩
      · exact absurd (Or.inl h) hm
      · exact absurd (Or.inr h) hm
      · exact ⟨k, List.mem_range.mpr hk, decide_eq_true hp⟩

/-- C14, the witness: the instruction with the operand `[rip + 16]` has an address
operand. -/
theorem isAddrOperand_intel_witness :
    ripRelSession2.isAddrOperand sampleOpcodes 0 = some true := by
  obtain ⟨b, h1, h2⟩ :=
    isAddrOperand_intel ripRelSession2 sampleOpcodes 0 (by decide) (by decide) (by decide)
  rw [h1]
  exact congrArg some (h2.mpr (by decide))

/-! ## Initialization -/

theorem init_capstone_unmapped (e : Engine) (s : CDisasm) (arch : exe_arch) (bitMode : Nat)
    (h : (arch = ARCH_ARM ∧ bitMode = 16) ∨ (arch ≠ ARCH_INTEL ∧ arch ≠ ARCH_ARM)) :
    s.init_capstone e arch bitMode = (s, false) := by
  unfold CDisasm.init_capstone
  rcases h with ⟨h1, h2⟩ | ⟨h1, h2⟩
  · subst h1 h2
    simp
  · simp [h1, h2]

/-- C15: the value `init()` returns equals the flag `is_init` afterwards, for every
input; and it is false, the session left uninitialized, when the buffer pointer is
null, the buffer size is 0, the pair is ARM with 16-bit mode, or the architecture is
neither Intel nor ARM. -/
theorem init_result (e : Engine) (convertToVA : Nat → Nat) (s : CDisasm)
    (buf : Option (List Nat)) (bufSize disasmSize offset : Nat) (arch : exe_arch)
    (bitMode : Nat) :
    (s.init e convertToVA buf bufSize disasmSize offset arch bitMode).2
        = (s.init e convertToVA buf bufSize disasmSize offset arch bitMode).1.is_init
      ∧ (buf = none ∨ bufSize = 0 ∨ (arch = ARCH_ARM ∧ bitMode = 16)
          ∨ (arch ≠ ARCH_INTEL ∧ arch ≠ ARCH_ARM) →
        (s.init e convertToVA buf bufSize disasmSize offset arch bitMode).2 = false
          ∧ (s.init e convertToVA buf bufSize disasmSize offset arch bitMode).1.is_init
              = false) := by
  have hret : (s.init e convertToVA buf bufSize disasmSize offset arch bitMode).2
        = (s.init e convertToVA buf bufSize disasmSize offset arch bitMode).1.is_init := by
    unfold CDisasm.init
    cases buf with
    | none => rfl
    | some bytes =>
      simp only
      split_ifs <;> rfl
  refine ⟨hret, fun h => ?_⟩
  rw [← hret, and_self]
  unfold CDisasm.init
  cases buf with
  | none => rfl
  | some bytes =>
    simp only
    by_cases hz : bufSize = 0
    · rw [if_pos hz]
    · rw [if_neg hz]
      rcases h with h | h | h
      · exact absurd h (by simp)
      · exact absurd h hz
      · simp only [init_capstone_unmapped e _ arch bitMode h]

/-- C15, the witness: `init` for ARM in 16-bit mode returns false and leaves the
session uninitialized. -/
theorem init_result_witness :
    (CDisasm.new.init sampleEngine id (some [144]) 1 1 4096 ARCH_ARM 16).2 = false
      ∧ (CDisasm.new.init sampleEngine id (some [144]) 1 1 4096 ARCH_ARM 16).1.is_init
          = false :=
  (init_result sampleEngine id CDisasm.new (some [144]) 1 1 4096 ARCH_ARM 16).2
    (Or.inr (Or.inr (Or.inl ⟨rfl, rfl⟩)))

/-! ## The two sequences have equal length -/

theorem init_capstone_inv (e : Engine) (s : CDisasm) (arch : exe_arch) (bitMode : Nat) :
    (s.init_capstone e arch bitMode).1.m_table = s.m_table
      ∧ (s.init_capstone e arch bitMode).1.m_details = s.m_details
      ∧ ((s.init_capstone e arch bitMode).2 = true →
          (s.init_capstone e arch bitMode).1.m_insn.isSome = true) := by
  unfold CDisasm.init_capstone
  simp only
  split
  · exact ⟨rfl, rfl, fun h => absurd h (by simp)⟩
  · split_ifs
    · exact ⟨rfl, rfl, fun h => absurd h (by simp)⟩
    · exact ⟨rfl, rfl, fun _ => rfl⟩
    · exact ⟨rfl, rfl, fun h => absurd h (by simp)⟩

theorem init_inv (e : Engine) (convertToVA : Nat → Nat) (s : CDisasm)
    (buf : Option (List Nat)) (bufSize disasmSize offset : Nat) (arch : exe_arch)
    (bitMode : Nat) (h : SessionInv s) :
    SessionInv (s.init e convertToVA buf bufSize disasmSize offset arch bitMode).1 := by
  unfold CDisasm.init
  cases buf with
  | none => exact ⟨h.1, fun hi => absurd hi (by simp)⟩
  | some bytes =>
    simp only
    by_cases hz : bufSize = 0
    · rw [if_pos hz]
      exact ⟨h.1, fun hi => absurd hi (by simp)⟩
    · rw [if_neg hz]
      refine ⟨?_, fun hi => ?_⟩
      · have h1 := (init_capstone_inv e
          ({ s with
            is_init := false, m_buf := bytes, m_bufSize := bufSize, m_disasmSize := disasmSize,
            m_iptr := 0, m_offset := 0, startOffset := convertToVA offset,
            m_RVA := if convertToVA offset ≠ INVALID_ADDR then convertToVA offset else 0,
            m_bitMode := bitMode, m_arch := arch }) arch bitMode)
        exact (congrArg List.length h1.1).trans (h.1.trans (congrArg List.length h1.2.1).symm)
      · exact (init_capstone_inv e _ arch bitMode).2.2 hi

theorem disasmNext_inv (e : Engine) (s s1 : CDisasm) (n : Nat) (h : SessionInv s)
    (hd : s.disasmNext e = some (s1, n)) : SessionInv s1 := by
  unfold CDisasm.disasmNext at hd
  split_ifs at hd with hg
  · simp only [Option.some.injEq, Prod.mk.injEq] at hd
    rw [← hd.1]
    exact h
  · cases hm : s.m_insn with
    | none => simp [hm] at hd
    | some r =>
      simp only [hm] at hd
      cases hc : cs_disasm_iter e s.handle s.m_buf s.m_bufSize s.m_RVA with
      | none =>
        simp only [hc, Option.some.injEq, Prod.mk.injEq] at hd
        rw [← hd.1]
        exact ⟨h.1, fun hi => absurd hi (by simp)⟩
      | some x =>
        obtain ⟨buf, bufSize, rva, insn, detail⟩ := x
        simp only [hc, Option.some.injEq, Prod.mk.injEq] at hd
        rw [← hd.1]
        exact ⟨h.1, fun _ => rfl⟩

theorem fillTable_inv (e : Engine) (s : CDisasm) (h : SessionInv s) :
    ∃ s1 b, s.fillTable e = some (s1, b) ∧ s1.m_table.length = s1.m_details.length := by
  by_cases hinit : s.is_init = true
  · obtain ⟨s1, h1, h2, h3⟩ := fillTable_of_init e s hinit (h.2 hinit)
    refine ⟨s1, _, h1, ?_⟩
    rw [h2, h3, List.length_map, List.length_map]
  · have hf : s.is_init = false := by simpa using hinit
    refine ⟨s, false, ?_, h.1⟩
    unfold CDisasm.fillTable
    rw [hf]
    rfl

theorem fillLoop_insn (e : Engine) (fuel : Nat) : ∀ (s s1 : CDisasm) (p : Nat),
    s.m_insn.isSome = true → CDisasm.fillLoop e fuel s p = some s1 →
    s1.m_insn.isSome = true := by
  induction fuel with
  | zero =>
    intro s s1 p hm h
    unfold CDisasm.fillLoop at h
    split_ifs at h
    simp only [Option.some.injEq] at h
    rw [← h]
    exact hm
  | succ fuel ih =>
    intro s s1 p hm h
    unfold CDisasm.fillLoop at h
    split_ifs at h with hp
    · cases hd : s.disasmNext e with
      | none => simp [hd] at h
      | some r =>
        obtain ⟨s2, step⟩ := r
        have hm2 : s2.m_insn.isSome = true := by
          unfold CDisasm.disasmNext at hd
          split_ifs at hd
          · simp only [Option.some.injEq, Prod.mk.injEq] at hd
            rw [← hd.1]
            exact hm
          · obtain ⟨r, hr⟩ := Option.isSome_iff_exists.mp hm
            simp only [hr] at hd
            cases hc : cs_disasm_iter e s.handle s.m_buf s.m_bufSize s.m_RVA with
            | none =>
              simp only [hc, Option.some.injEq, Prod.mk.injEq] at hd
              rw [← hd.1]
              simp [hr]
            | some x =>
              obtain ⟨buf, bufSize, rva, insn, detail⟩ := x
              simp only [hc, Option.some.injEq, Prod.mk.injEq] at hd
              rw [← hd.1]
              rfl
        simp only [hd] at h
        split_ifs at h with hz
        · simp only [Option.some.injEq] at h
          rw [← h]
          exact hm2
        · obtain ⟨r, hr⟩ := Option.isSome_iff_exists.mp hm2
          obtain ⟨insn, detail⟩ := r
          simp only [hr] at h
          exact ih _ s1 _ (by rfl) h
    · simp only [Option.some.injEq] at h
      rw [← h]
      exact hm

theorem fillTable_sessionInv (e : Engine) (s s1 : CDisasm) (b : Bool) (h : SessionInv s)
    (hf : s.fillTable e = some (s1, b)) : SessionInv s1 := by
  obtain ⟨s2, b2, h1, h2⟩ := fillTable_inv e s h
  rw [hf] at h1
  simp only [Option.some.injEq, Prod.mk.injEq] at h1
  refine ⟨by rw [h1.1]; exact h2, fun hi => ?_⟩
  unfold CDisasm.fillTable at hf
  by_cases hinit : s.is_init = true
  · simp only [hinit, Bool.not_true, Bool.false_eq_true, if_false] at hf
    cases hl : CDisasm.fillLoop e s.m_disasmSize s.clearTable.1 0 with
    | none => simp [hl] at hf
    | some s3 =>
      simp only [hl, Option.some.injEq, Prod.mk.injEq] at hf
      rw [← hf.1]
      exact fillLoop_insn e _ s.clearTable.1 _ _ (h.2 hinit) hl
  · have hfalse : s.is_init = false := by simpa using hinit
    simp only [hfalse, Bool.not_false, if_true, Option.some.injEq, Prod.mk.injEq] at hf
    rw [← hf.1] at hi
    exact absurd hi hinit

theorem reachable_inv (s : CDisasm) (h : Reachable s) : SessionInv s := by
  induction h with
  | new => exact ⟨rfl, fun hi => absurd hi (by decide)⟩
  | init e conv s buf bufSize disasmSize offset arch bitMode _ ih =>
    exact init_inv e conv s buf bufSize disasmSize offset arch bitMode ih
  | clearTable s _ ih => exact ⟨rfl, ih.2⟩
  | disasmNext e s s1 n _ hd ih => exact disasmNext_inv e s s1 n ih hd
  | fillTable e s s1 b _ hf ih => exact fillTable_sessionInv e s s1 b ih hf

/-- C16: the instruction sequence and the detail sequence have equal length in a newly
constructed session, after `clearTable()`, and after every call of `fillTable()` on a
session where they had (the call returns, with true or false, when an initialized
session has its result record allocated); hence in every reachable session state,
where `fillTable()` always returns. -/
theorem tables_equal_length (e : Engine) (s : CDisasm) :
    CDisasm.new.m_table.length = CDisasm.new.m_details.length
      ∧ s.clearTable.1.m_table.length = s.clearTable.1.m_details.length
      ∧ (s.m_table.length = s.m_details.length →
          (s.is_init = true → s.m_insn.isSome = true) →
          ∃ s1 b, s.fillTable e = some (s1, b)
            ∧ s1.m_table.length = s1.m_details.length)
      ∧ (Reachable s →
          s.m_table.length = s.m_details.length
            ∧ ∃ s1 b, s.fillTable e = some (s1, b)
                ∧ s1.m_table.length = s1.m_details.length) := by
  refine ⟨rfl, rfl, fun h1 h2 => fillTable_inv e s ⟨h1, h2⟩, fun hr => ?_⟩
  have hinv := reachable_inv s hr
  exact ⟨hinv.1, fillTable_inv e s hinv⟩

/-- C16, the witness: the fresh session over `push 0x401000; ret` is reachable, its
sequences have equal length, and so have those its `fillTable()` leaves. -/
theorem tables_equal_length_witness :
    pushRetFresh.m_table.length = pushRetFresh.m_details.length
      ∧ ∃ s1 b, pushRetFresh.fillTable sampleEngine = some (s1, b)
          ∧ s1.m_table.length = s1.m_details.length :=
  (tables_equal_length sampleEngine pushRetFresh).2.2.2
    (Reachable.init sampleEngine id CDisasm.new (some [104, 0, 16, 64, 0, 195]) 6 6 4096
      ARCH_INTEL 32 Reachable.new)

/-! ## What getArgVA reports -/

theorem trimToBitMode_lt (x : Int) (bits : Nat) : trimToBitMode x bits < 2 ^ bits := by
  unfold trimToBitMode
  have hpos : (0 : Int) < (2 : Int) ^ bits := by positivity
  have h1 := Int.emod_lt_of_pos x hpos
  have h0 := Int.emod_nonneg x (ne_of_gt hpos)
  have : ((x % (2 : Int) ^ bits).toNat : Int) < ((2 ^ bits : Nat) : Int) := by
    rw [Int.toNat_of_nonneg h0]
    push_cast
    exact h1
  exact_mod_cast this

theorem trimToBitMode_of_lt (n bits : Nat) (h : n < 2 ^ bits) :
    trimToBitMode (n : Int) bits = n := by
  unfold trimToBitMode
  have h2 : ((n : Int)) < (2 : Int) ^ bits := by exact_mod_cast h
  rw [Int.emod_eq_of_lt (Int.natCast_nonneg n) h2]
  exact Int.toNat_natCast n

theorem cleanup_spec (s : CDisasm) (va0 : Nat) (h64 : va0 < 18446744073709551616)
    (hbits : s.m_bitMode = 16 ∨ s.m_bitMode = 32 ∨ s.m_bitMode = 64) :
    ((s.cleanup va0).2 = false ↔ (s.cleanup va0).1 = INVALID_ADDR)
      ∧ ((s.cleanup va0).2 = true →
          (s.cleanup va0).1 < 2 ^ s.m_bitMode
            ∧ trimToBitMode ((s.cleanup va0).1 : Int) s.m_bitMode = (s.cleanup va0).1) := by
  unfold CDisasm.cleanup
  by_cases h : va0 = INVALID_ADDR
  · simp [h]
  · simp only [ne_eq, h, not_false_eq_true, if_true, Bool.true_eq_false, false_iff, true_implies]
    have hlt := trimToBitMode_lt (va0 : Int) s.m_bitMode
    refine ⟨?_, hlt, trimToBitMode_of_lt _ _ hlt⟩
    rcases hbits with hb | hb | hb
    · rw [hb] at hlt ⊢
      unfold INVALID_ADDR
      omega
    · rw [hb] at hlt ⊢
      unfold INVALID_ADDR
      omega
    · rw [hb, trimToBitMode_of_lt va0 64 (by omega)]
      exact h

theorem getArgVA_shape (s : CDisasm) (i k : Int)
    (hdet : s.m_details.length = s.m_table.length)
    (hbits : s.m_bitMode = 16 ∨ s.m_bitMode = 32 ∨ s.m_bitMode = 64) :
    ∃ va0 : Nat, va0 < 18446744073709551616 ∧ s.getArgVA i k = some (s.cleanup va0) := by
  have hinv : (INVALID_ADDR, false) = s.cleanup INVALID_ADDR := by
    unfold CDisasm.cleanup
    simp
  have hI : INVALID_ADDR < 18446744073709551616 := by decide
  unfold CDisasm.getArgVA
  by_cases h : s.m_table.length ≤ toSizeT i
  · exact ⟨INVALID_ADDR, hI, by rw [if_pos h, hinv]⟩
  · have h1 : toSizeT i < s.m_table.length := by omega
    have h2 : toSizeT i < s.m_details.length := by omega
    simp only [if_neg h, List.getElem?_eq_getElem h1, List.getElem?_eq_getElem h2,
      Option.bind_eq_bind, Option.some_bind]
    have htrim : ∀ x : Int, trimToBitMode x s.m_bitMode < 18446744073709551616 := by
      intro x
      have := trimToBitMode_lt x s.m_bitMode
      rcases hbits with hb | hb | hb <;> rw [hb] at this ⊢ <;> omega
    split_ifs
    all_goals first
      | exact ⟨INVALID_ADDR, hI, by rw [hinv]⟩
      | exact ⟨_, toSizeT_lt _, rfl⟩
      | exact ⟨_, htrim _, rfl⟩
      | exact ⟨_, hI, rfl⟩


/-- C18: for every index, operand number and architecture, with a bit width of 16, 32
or 64, `getArgVA` returns, and it reports ok = false exactly when the address it
returns is the sentinel; when it reports ok = true the address is below 2 to the bit
width, so trimming it again changes nothing. -/
theorem getArgVA_ok_iff (s : CDisasm) (i k : Int)
    (hdet : s.m_details.length = s.m_table.length)
    (hbits : s.m_bitMode = 16 ∨ s.m_bitMode = 32 ∨ s.m_bitMode = 64) :
    ∃ va ok, s.getArgVA i k = some (va, ok)
      ∧ (ok = false ↔ va = INVALID_ADDR)
      ∧ (ok = true → va < 2 ^ s.m_bitMode ∧ trimToBitMode (va : Int) s.m_bitMode = va) := by
  obtain ⟨va0, h64, h⟩ := getArgVA_shape s i k hdet hbits
  exact ⟨_, _, h, cleanup_spec s va0 h64 hbits⟩

/-- C18, the witness: the result for `push 0x401000` in 32-bit mode. -/
theorem getArgVA_ok_iff_witness :
    ∃ va ok, pushImmSession.getArgVA 0 0 = some (va, ok)
      ∧ (ok = false ↔ va = INVALID_ADDR)
      ∧ (ok = true → va < 2 ^ pushImmSession.m_bitMode
          ∧ trimToBitMode (va : Int) pushImmSession.m_bitMode = va) :=
  getArgVA_ok_iff pushImmSession 0 0 (by decide) (by decide)

/-! ## Followable instructions resolve -/

theorem isFollowable_true_shape (s : CDisasm) (c : Opcodes) (y : Int)
    (hdet : s.m_details.length = s.m_table.length)
    (h : s.isFollowable c y = some true) :
    toSizeT y < s.m_table.length
      ∧ ((s.m_arch = ARCH_INTEL
          ∧ 0 < (s.m_details.getD (toSizeT y) default).x86.op_count
          ∧ (((s.m_details.getD (toSizeT y) default).x86.operands.getD 0 default).type
                = X86_OP_IMM
            ∨ (((s.m_details.getD (toSizeT y) default).x86.operands.getD 0 default).type
                  = X86_OP_MEM
              ∧ (((s.m_details.getD (toSizeT y) default).x86.operands.getD 0 default).mem.base
                    = X86_REG_INVALID
                ∨ ((s.m_details.getD (toSizeT y) default).x86.operands.getD 0 default).mem.base
                    = X86_REG_IP
                ∨ ((s.m_details.getD (toSizeT y) default).x86.operands.getD 0 default).mem.base
                    = X86_REG_EIP
                ∨ ((s.m_details.getD (toSizeT y) default).x86.operands.getD 0 default).mem.base
                    = X86_REG_RIP))))
        ∨ (s.m_arch = ARCH_ARM ∧ s.m_bitMode = 64
          ∧ 0 < (s.m_details.getD (toSizeT y) default).arm64.op_count
          ∧ ((s.m_details.getD (toSizeT y) default).arm64.operands.getD 0 default).type
              = ARM64_OP_IMM)) := by
  unfold CDisasm.isFollowable CDisasm.chunksCount CDisasm._chunksCount at h
  by_cases hr : s.m_table.length ≤ toSizeT y
  · rw [if_pos hr] at h
    exact absurd h (by simp)
  have h1 : toSizeT y < s.m_table.length := by omega
  have h2 : toSizeT y < s.m_details.length := by omega
  have hd : s.m_details.getD (toSizeT y) default = s.m_details[toSizeT y] := by
    simp [List.getD_eq_getElem?_getD, List.getElem?_eq_getElem h2]
  rw [hd]
  refine ⟨h1, ?_⟩
  rw [if_neg hr] at h
  by_cases ha : s.getRvaAt y = INVALID_ADDR
  · rw [if_pos ha] at h
    exact absurd h (by simp)
  rw [if_neg ha] at h
  simp only [Option.bind_eq_bind, List.getElem?_eq_getElem h2, Option.some_bind] at h
  have hbody :
      (if s.m_arch = ARCH_INTEL then
        if s.m_details[toSizeT y].x86.op_count = 0 then some false
        else if (s.m_details[toSizeT y].x86.operands.getD 0 default).type = X86_OP_IMM then
          some true
        else if (s.m_details[toSizeT y].x86.operands.getD 0 default).type = X86_OP_MEM
            ∨ (s.m_details[toSizeT y].x86.operands.getD 0 default).type = X86_OP_IMM then
          if (s.m_details[toSizeT y].x86.operands.getD 0 default).mem.base ≤ X86_REG_INVALID then
            some true
          else if (s.m_details[toSizeT y].x86.operands.getD 0 default).mem.base = X86_REG_IP
              ∨ (s.m_details[toSizeT y].x86.operands.getD 0 default).mem.base = X86_REG_EIP
              ∨ (s.m_details[toSizeT y].x86.operands.getD 0 default).mem.base = X86_REG_RIP then
            some true
          else some false
        else some false
      else if s.m_arch = ARCH_ARM ∧ s.m_bitMode = 64 then
        if s.m_details[toSizeT y].arm64.op_count = 0 then some false
        else if (s.m_details[toSizeT y].arm64.operands.getD 0 default).type = ARM64_OP_IMM then
          some true
        else some false
      else some false) = some true := by
    by_cases hb : s.isBranching c y = true
    · simpa only [if_pos hb, Bool.not_true, Bool.false_eq_true, if_false] using h
    · rw [if_neg hb] at h
      cases hpr : s.isPushRet c y with
      | none =>
        rw [hpr] at h
        exact absurd h (by simp)
      | some r =>
        obtain ⟨b, r2⟩ := r
        rw [hpr] at h
        cases b with
        | false => exact absurd h (by simp)
        | true =>
          simpa only [Option.map_some', Option.some_bind, Bool.not_true, Bool.false_eq_true,
            if_false] using h
  clear h
  generalize s.m_details[toSizeT y] = d at hbody ⊢
  have h := hbody
  all_goals
      by_cases hI : s.m_arch = ARCH_INTEL
      · left
        simp only [if_pos hI] at h
        refine ⟨hI, ?_⟩
        by_cases hc : d.x86.op_count = 0
        · rw [if_pos hc] at h
          exact absurd h (by simp)
        · rw [if_neg hc] at h
          refine ⟨by omega, ?_⟩
          by_cases ht : (d.x86.operands.getD 0 default).type = X86_OP_IMM
          · exact Or.inl ht
          · right
            simp only [if_neg ht, ht, or_false] at h
            by_cases hm : (d.x86.operands.getD 0 default).type = X86_OP_MEM
            · refine ⟨hm, ?_⟩
              simp only [if_pos hm, X86_REG_INVALID, Nat.le_zero] at h
              by_cases hb : (d.x86.operands.getD 0 default).mem.base = 0
              · exact Or.inl hb
              · right
                rw [if_neg hb] at h
                by_contra hn
                rw [if_neg hn] at h
                exact absurd h (by simp)
            · rw [if_neg hm] at h
              exact absurd h (by simp)
      · right
        simp only [if_neg hI] at h
        by_cases hA : s.m_arch = ARCH_ARM ∧ s.m_bitMode = 64
        · rw [if_pos hA] at h
          refine ⟨hA.1, hA.2, ?_⟩
          by_cases hc : d.arm64.op_count = 0
          · rw [if_pos hc] at h
            exact absurd h (by simp)
          · rw [if_neg hc] at h
            refine ⟨by omega, ?_⟩
            by_contra hn
            rw [if_neg hn] at h
            exact absurd h (by simp)
        · rw [if_neg hA] at h
          exact absurd h (by simp)

theorem getArgVA_of_followable (s : CDisasm) (c : Opcodes) (y : Int)
    (hdet : s.m_details.length = s.m_table.length)
    (h : s.isFollowable c y = some true) :
    s.getArgVA y 0 = some (s.cleanup (firstOperandValue s y)) := by
  obtain ⟨h1, hshape⟩ := isFollowable_true_shape s c y hdet h
  have h2 : toSizeT y < s.m_details.length := by omega
  have hd : s.m_details.getD (toSizeT y) default = s.m_details[toSizeT y] := by
    simp [List.getD_eq_getElem?_getD, List.getElem?_eq_getElem h2]
  have ht : s.m_table.getD (toSizeT y) default = s.m_table[toSizeT y] := by
    simp [List.getD_eq_getElem?_getD, List.getElem?_eq_getElem h1]
  have h0 : toSizeT 0 = 0 := by decide
  unfold CDisasm.getArgVA firstOperandValue
  rw [hd] at hshape ⊢
  simp only [if_neg (Nat.not_le.mpr h1), List.getElem?_eq_getElem h1,
    List.getElem?_eq_getElem h2, Option.bind_eq_bind, Option.some_bind, h0,
    CDisasm.getVaAt, CDisasm.getChunkSize, getJmpDestAddr, X86_REG_INVALID, Nat.le_zero]
  rcases hshape with ⟨hI, hc, hop⟩ | ⟨hA, hb, hc, hop⟩
  · simp only [if_pos hI, if_neg (Nat.pos_iff_ne_zero.mp hc)]
    rcases hop with hop | ⟨hop, hbase⟩
    · simp only [hop, if_true, reduceCtorEq, if_false]
    · simp only [hop, if_true, reduceCtorEq, if_false]
      rcases hbase with hbase | hbase | hbase | hbase
      · simp only [hbase, X86_REG_INVALID, X86_REG_IP, X86_REG_EIP, X86_REG_RIP,
          OfNat.zero_ne_ofNat, or_self, if_false, if_true]
      all_goals
        simp only [hbase, X86_REG_INVALID, X86_REG_IP, X86_REG_EIP, X86_REG_RIP, true_or,
          or_true, if_true, OfNat.ofNat_ne_zero, if_false, ht]
  · have hI : s.m_arch ≠ ARCH_INTEL := by rw [hA]; decide
    simp only [if_neg hI, if_pos (And.intro hA hb), if_neg (Nat.pos_iff_ne_zero.mp hc), hop,
      if_true]

theorem firstOperandValue_lt (s : CDisasm) (y : Int)
    (hbits : s.m_bitMode = 16 ∨ s.m_bitMode = 32 ∨ s.m_bitMode = 64) :
    firstOperandValue s y < 18446744073709551616 := by
  unfold firstOperandValue
  simp only
  split_ifs
  · exact toSizeT_lt _
  · have := trimToBitMode_lt
      ((s.m_details.getD (toSizeT y) default).x86.operands.getD 0 default).mem.disp s.m_bitMode
    rcases hbits with hb | hb | hb <;> rw [hb] at this ⊢ <;> omega
  · exact toSizeT_lt _
  · exact toSizeT_lt _

/-- C17 (as amended): on either supported architecture, whenever `isFollowable(y)` is
true, `getArgVA(y, 0)` resolves the first operand: with `v` the operand's value as a
64-bit address, if `v` is not the sentinel it reports ok = true and returns `v` trimmed
to the bit width, an address different from the sentinel; if `v` is the sentinel it
reports ok = false and returns the sentinel. -/
theorem isFollowable_resolves (s : CDisasm) (c : Opcodes) (y : Int)
    (hdet : s.m_details.length = s.m_table.length)
    (hbits : s.m_bitMode = 16 ∨ s.m_bitMode = 32 ∨ s.m_bitMode = 64)
    (h : s.isFollowable c y = some true) :
    s.getArgVA y 0 =
        some (if firstOperandValue s y ≠ INVALID_ADDR
              then (trimToBitMode (firstOperandValue s y : Int) s.m_bitMode, true)
              else (INVALID_ADDR, false))
      ∧ (firstOperandValue s y ≠ INVALID_ADDR →
          trimToBitMode (firstOperandValue s y : Int) s.m_bitMode ≠ INVALID_ADDR) := by
  have hspec := cleanup_spec s (firstOperandValue s y) (firstOperandValue_lt s y hbits) hbits
  constructor
  · rw [getArgVA_of_followable s c y hdet h]
    unfold CDisasm.cleanup
    split_ifs with hv
    · rfl
    · rw [not_not.mp hv]
  · intro hv hcontra
    unfold CDisasm.cleanup at hspec
    rw [if_pos hv] at hspec
    have hx := hspec.1.mpr hcontra
    exact absurd hx (by simp)

/-- C17, the witness: the push of `push 0x401000; ret` is followable and its operand
resolves to 0x401000. -/
theorem isFollowable_resolves_witness :
    pushRetSession.getArgVA 0 0 = some (4198400, true) :=
  (isFollowable_resolves pushRetSession sampleOpcodes 0 (by decide) (by decide)
    (by decide)).1

/-- C17, the counterexample: the push of `push -1; ret` in 64-bit mode is followable,
yet `getArgVA` reports failure for its first operand. -/
theorem isFollowable_resolves_counterexample :
    pushMinusOneRetSession.isFollowable sampleOpcodes 0 = some true
      ∧ pushMinusOneRetSession.getArgVA 0 0 = some (INVALID_ADDR, false) := by
  decide

/-! ## The ARM64 classifier never returns push -/

theorem arm64GroupScan_range (c : arm64_insn) (cMnem : Nat) (gs : List Nat) :
    arm64GroupScan c cMnem gs ∈ [MT_CALL, MT_RET, MT_INTX, MT_JUMP, MT_COND_JUMP, MT_OTHER] := by
  induction gs with
  | nil => simp [arm64GroupScan]
  | cons g rest ih =>
    unfold arm64GroupScan
    split_ifs <;> first | exact ih | simp

theorem fetchMnemType_Arm64_range (c : arm64_insn) (insn : cs_insn) (d : cs_detail) :
    fetchMnemType_Arm64 c insn d
      ∈ [MT_INT3, MT_INVALID, MT_NOP, MT_CALL, MT_RET, MT_INTX, MT_JUMP, MT_COND_JUMP,
          MT_OTHER] := by
  unfold fetchMnemType_Arm64
  simp only
  split_ifs
  · simp
  · simp
  · simp
  · have := arm64GroupScan_range c insn.id d.groups
    simp only [List.mem_cons, List.mem_singleton, List.not_mem_nil, or_false] at this ⊢
    tauto

theorem isPushRet_arm64 (s : CDisasm) (c : Opcodes) (i : Int)
    (hdet : s.m_details.length = s.m_table.length)
    (harch : s.m_arch = ARCH_ARM) :
    s.isPushRet c i = some (false, none) := by
  unfold CDisasm.isPushRet CDisasm._chunksCount
  by_cases h : s.m_table.length ≤ toSizeT i
  · rw [if_pos h]
  · have h1 : toSizeT i < s.m_table.length := by omega
    have h2 : toSizeT i < s.m_details.length := by omega
    have hf : ∀ insn d, s.fetchMnemType c insn d ≠ MT_PUSH := by
      intro insn d hp
      have := fetchMnemType_push_intel s c insn d hp
      rw [harch] at this
      exact absurd this (by decide)
    simp only [if_neg h, List.getElem?_eq_getElem h1, List.getElem?_eq_getElem h2,
      Option.bind_eq_bind, Option.some_bind, if_neg (hf _ _)]

/-- C19: the ARM64 classifier returns one of breakpoint trap, invalid, nop, call,
return, software interrupt, jump, conditional jump and other, so never push, pop,
move or loop; and on a session that classifies with it (ARM, 64 bits) `isPushRet(i)`
is false for every index `i`. -/
theorem arm64_never_push (c : Opcodes) :
    (∀ (insn : cs_insn) (d : cs_detail),
      fetchMnemType_Arm64 c.arm64 insn d
          ∈ [MT_INT3, MT_INVALID, MT_NOP, MT_CALL, MT_RET, MT_INTX, MT_JUMP, MT_COND_JUMP,
              MT_OTHER]
        ∧ fetchMnemType_Arm64 c.arm64 insn d ≠ MT_PUSH
        ∧ fetchMnemType_Arm64 c.arm64 insn d ≠ MT_POP
        ∧ fetchMnemType_Arm64 c.arm64 insn d ≠ MT_MOV
        ∧ fetchMnemType_Arm64 c.arm64 insn d ≠ MT_LOOP)
      ∧ (∀ (s : CDisasm) (i : Int), s.m_details.length = s.m_table.length →
          s.m_arch = ARCH_ARM → s.m_bitMode = 64 →
          (∀ insn d, s.fetchMnemType c insn d = fetchMnemType_Arm64 c.arm64 insn d)
            ∧ s.isPushRet c i = some (false, none)) := by
  constructor
  · intro insn d
    have h := fetchMnemType_Arm64_range c.arm64 insn d
    refine ⟨h, ?_, ?_, ?_, ?_⟩ <;> intro hx <;> rw [hx] at h <;> exact absurd h (by decide)
  · intro s i hdet harch hbits
    refine ⟨fun insn d => ?_, isPushRet_arm64 s c i hdet harch⟩
    unfold CDisasm.fetchMnemType
    rw [if_neg (by rw [harch]; decide), if_pos ⟨harch, hbits⟩]

/-- C19, the witness: on the ARM64 sample session `isPushRet(0)` is false. -/
theorem arm64_never_push_witness :
    arm64Session.isPushRet sampleOpcodes 0 = some (false, none) :=
  ((arm64_never_push sampleOpcodes).2 arm64Session 0 (by decide) (by decide) (by decide)).2

/-! ## The size bound -/

theorem decodedFrom_bound (e : Engine) (handle bound : Nat) :
    ∀ (fuel : Nat) (buf : List Nat) (bufSize rva p : Nat),
    decodedFrom e handle bound fuel buf bufSize rva p ≠ [] →
    p + ((decodedFrom e handle bound fuel buf bufSize rva p).dropLast.map
          fun x => x.1.size).sum < bound := by
  intro fuel
  induction fuel with
  | zero =>
    intro buf bufSize rva p h
    exact absurd rfl h
  | succ fuel ih =>
    intro buf bufSize rva p h
    unfold decodedFrom at h ⊢
    by_cases hp : p < bound
    · simp only [if_pos hp] at h ⊢
      cases hd : cs_disasm_iter e handle buf bufSize rva with
      | none => simp [hd] at h
      | some r =>
        obtain ⟨buf1, bufSize1, rva1, insn, detail⟩ := r
        simp only [hd] at h ⊢
        by_cases hz : insn.size = 0
        · simp [hz] at h
        · simp only [if_neg hz]
          cases hrest : decodedFrom e handle bound fuel buf1 bufSize1 rva1 (p + insn.size) with
          | nil => simpa using hp
          | cons x rest =>
            have := ih buf1 bufSize1 rva1 (p + insn.size) (by rw [hrest]; simp)
            rw [hrest] at this
            rw [List.dropLast_cons₂, List.map_cons, List.sum_cons]
            simp only at this ⊢
            omega
    · simp [if_neg hp] at h

theorem sum_dropLast_add_getLast (l : List Nat) (x : Nat) (h : l.getLast? = some x) :
    l.sum = l.dropLast.sum + x := by
  induction l with
  | nil => simp at h
  | cons a rest ih =>
    cases rest with
    | nil =>
      simp at h
      simp [h]
    | cons b rest2 =>
      rw [List.getLast?_cons_cons] at h
      have h2 := ih h
      simp only [List.dropLast_cons₂, List.sum_cons] at h2 ⊢
      omega

theorem fillTable_true_init (e : Engine) (s s1 : CDisasm)
    (h : s.fillTable e = some (s1, true)) :
    s.is_init = true ∧ s.m_insn.isSome = true := by
  unfold CDisasm.fillTable at h
  by_cases hinit : s.is_init = true
  · refine ⟨hinit, ?_⟩
    simp only [hinit, Bool.not_true, Bool.false_eq_true, if_false] at h
    cases hm : s.m_insn with
    | some r => rfl
    | none =>
      exfalso
      cases hn : s.m_disasmSize with
      | zero =>
        rw [hn] at h
        unfold CDisasm.fillLoop at h
        simp [CDisasm.clearTable, hn] at h
      | succ n =>
        rw [hn] at h
        unfold CDisasm.fillLoop CDisasm.disasmNext at h
        simp [CDisasm.clearTable, hn, hm, hinit] at h
  · have hf : s.is_init = false := by simpa using hinit
    simp [hf] at h

/-- C20: after a call of `fillTable()` that returns true, the sizes of all table
entries but the last sum to less than `m_disasmSize`, so the sizes of all entries sum
to less than `m_disasmSize` plus the size of the last; and with `m_disasmSize = 0` on
an initialized session the call decodes nothing, leaves an empty table and returns
false. -/
theorem fillTable_overshoot (e : Engine) (s : CDisasm) :
    (∀ s1, s.fillTable e = some (s1, true) →
        ((s1.m_table.dropLast).map fun x => x.size).sum < s.m_disasmSize
        ∧ ∀ last, s1.m_table.getLast? = some last →
            (s1.m_table.map fun x => x.size).sum < s.m_disasmSize + last.size)
      ∧ (s.is_init = true → s.m_insn.isSome = true → s.m_disasmSize = 0 →
          decodedDuringCall e s = []
            ∧ ∃ s1, s.fillTable e = some (s1, false) ∧ s1.m_table = []) := by
  constructor
  · intro s1 h
    obtain ⟨hinit, hinsn⟩ := fillTable_true_init e s s1 h
    obtain ⟨s2, h1, h2, _⟩ := fillTable_of_init e s hinit hinsn
    rw [h] at h1
    simp only [Option.some.injEq, Prod.mk.injEq] at h1
    obtain ⟨h11, h12⟩ := h1
    subst h11
    have hne : decodedDuringCall e s ≠ [] := by
      intro hnil
      rw [hnil] at h2
      rw [h2] at h12
      exact absurd h12 (by simp)
    have hb := decodedFrom_bound e s.handle s.m_disasmSize s.m_disasmSize s.m_buf s.m_bufSize
      s.m_RVA 0 hne
    have hsum : ((s1.m_table.dropLast).map fun x => x.size).sum < s.m_disasmSize := by
      rw [h2, ← List.map_dropLast, List.map_map]
      unfold decodedDuringCall
      simpa [Function.comp] using hb
    refine ⟨hsum, fun last hl => ?_⟩
    have hl2 : (s1.m_table.map fun x => x.size).getLast? = some last.size := by
      rw [List.getLast?_map, hl]
      rfl
    rw [sum_dropLast_add_getLast _ _ hl2, ← List.map_dropLast]
    omega
  · intro hinit hinsn hz
    have hnil : decodedDuringCall e s = [] := by
      unfold decodedDuringCall
      rw [hz]
      rfl
    obtain ⟨s1, h1, h2, _⟩ := fillTable_of_init e s hinit hinsn
    rw [hnil] at h2
    refine ⟨hnil, s1, ?_, h2⟩
    rw [h1, h2]
    rfl

/-- C20, the witness: the pass over the one-byte buffer with bound 5 returns true and
leaves one entry; the entries before it sum to 0, below 5. -/
theorem fillTable_overshoot_witness :
    ((staleSession.m_table.dropLast).map fun x => x.size).sum < (nopSession 5).m_disasmSize
      ∧ ∀ last, staleSession.m_table.getLast? = some last →
          (staleSession.m_table.map fun x => x.size).sum
            < (nopSession 5).m_disasmSize + last.size :=
  (fillTable_overshoot sampleEngine (nopSession 5)).1 staleSession (by decide)

end pe_bear
